import Mathlib

/-!
Verification of the B-tree WAL redo/recovery subsystem (nbtxlog.c).

This file shallow-embeds the data model and the redo, tracker, conflict-resolver
and cleanup logic of the B-tree write-ahead-log replay code, and proves the
claims about it.  Pages are values, the page store is an association list keyed
by (relation-file-identity, block number), machine integers are Nat, fallible
code returns Except/Option, and PANIC-class aborts are Except.error values.
-/

set_option maxHeartbeats 1000000

namespace NbtXlog

/-- RelFileNode: the on-disk identity of a relation (tablespace, database, relation). -/
structure RelFileNode where
  spcNode : Nat
  dbNode : Nat
  relNode : Nat
deriving DecidableEq, Repr

/-- An index tuple: key payload bytes plus a tuple identifier (TID).
"Byte-for-byte" equality of tuples is structural equality of this value. -/
structure IndexTuple where
  tidBlock : Nat
  tidOffset : Nat
  data : List Nat
deriving DecidableEq, Repr

/-- The btpo_flags bits of a B-tree page's special area, one Bool per flag
(BTP_LEAF, BTP_ROOT, BTP_DELETED, BTP_META, BTP_HALF_DEAD, BTP_SPLIT_END,
BTP_HAS_GARBAGE in nbtree.h). -/
structure BTPageFlags where
  leaf : Bool := false
  root : Bool := false
  deleted : Bool := false
  metaFlag : Bool := false
  halfDead : Bool := false
  splitEnd : Bool := false
  hasGarbage : Bool := false
deriving DecidableEq, Repr

/-- All flags clear, as set by _bt_pageinit. -/
def noFlags : BTPageFlags := {}

/-- Only BTP_LEAF set. -/
def leafFlag : BTPageFlags := { leaf := true }

/-- BTPageOpaque: the special trailer area of a B-tree page.  The C union
`btpo` (level for live pages, xact for deleted pages) is modelled with two
fields, both zeroed by page init. -/
structure BTPageOpaque where
  btpo_prev : Nat
  btpo_next : Nat
  btpo_level : Nat
  btpo_xact : Nat
  btpo_flags : BTPageFlags
  btpo_cycleid : Nat
deriving DecidableEq, Repr

/-- BTMetaPageData: contents of the distinguished meta page (block 0). -/
structure BTMetaPageData where
  btm_magic : Nat
  btm_version : Nat
  btm_root : Nat
  btm_level : Nat
  btm_fastroot : Nat
  btm_fastlevel : Nat
deriving DecidableEq, Repr

/-- A page: stamped LSN, the ordered item array (1-based offsets; list index i
holds offset i+1), the special area, and (for the meta page) the meta data. -/
structure Page where
  lsn : Nat
  items : List IndexTuple
  special : BTPageOpaque
  pageMeta : Option BTMetaPageData
deriving DecidableEq, Repr

def P_NONE : Nat := 0

def P_HIKEY : Nat := 1

def P_FIRSTKEY : Nat := 2

def BTREE_METAPAGE : Nat := 0

def BTREE_MAGIC : Nat := 0x053162

def BTREE_VERSION : Nat := 4

def InvalidTransactionId : Nat := 0

def P_RIGHTMOST (op : BTPageOpaque) : Bool := op.btpo_next = P_NONE

def P_LEFTMOST (op : BTPageOpaque) : Bool := op.btpo_prev = P_NONE

def P_FIRSTDATAKEY (op : BTPageOpaque) : Nat :=
  if P_RIGHTMOST op then P_HIKEY else P_FIRSTKEY

/-- The function _bt_pageinit: a freshly initialized, empty page (zeroed header and special area). -/
def pageInit : Page :=
  { lsn := 0
    items := []
    special :=
      { btpo_prev := 0, btpo_next := 0, btpo_level := 0, btpo_xact := 0
        btpo_flags := noFlags, btpo_cycleid := 0 }
    pageMeta := none }

/-- Insert an element at 0-based position i (shifting the rest up). -/
def insertAt : List IndexTuple → Nat → IndexTuple → List IndexTuple
  | xs, 0, a => a :: xs
  | [], _ + 1, a => [a]
  | x :: xs, i + 1, a => x :: insertAt xs i a

/-- PageAddItem at a 1-based offset number; fails (InvalidOffsetNumber in C)
when the offset is out of the valid insertion range. -/
def PageAddItem (page : Page) (item : IndexTuple) (off : Nat) : Option Page :=
  if 1 ≤ off ∧ off ≤ page.items.length + 1 then
    some { page with items := insertAt page.items (off - 1) item }
  else
    none

/-- PageIndexMultiDelete: delete the items at the given 1-based offsets,
preserving the order of the remaining items. -/
def PageIndexMultiDelete (page : Page) (offs : List Nat) : Page :=
  { page with
    items := (page.items.enum.filterMap fun p =>
      if p.1 + 1 ∈ offs then none else some p.2) }

/-- PageIndexTupleDelete at a 1-based offset; out-of-range offsets are a
consistency error. -/
def PageIndexTupleDelete (page : Page) (off : Nat) : Option Page :=
  if 1 ≤ off ∧ off ≤ page.items.length then
    some { page with items := page.items.eraseIdx (off - 1) }
  else
    none

/-- PageGetItem at a 1-based offset. -/
def pageGetItem (page : Page) (off : Nat) : Option IndexTuple :=
  page.items.get? (off - 1)

/-- The page store: fixed-size block storage keyed by (relation, block number).
An association list; `readPage` with create-if-missing disabled returns none
for an absent block (an invalid buffer in C). -/
abbrev Store := List (RelFileNode × Nat × Page)

def readPage : Store → RelFileNode → Nat → Option Page
  | [], _, _ => none
  | (n, b, p) :: rest, node, blk =>
    if n = node ∧ b = blk then some p else readPage rest node blk

def writePage : Store → RelFileNode → Nat → Page → Store
  | [], node, blk, page => [(node, blk, page)]
  | (n, b, p) :: rest, node, blk, page =>
    if n = node ∧ b = blk then (n, b, page) :: rest
    else (n, b, p) :: writePage rest node blk page

/-- bt_incomplete_action: one entry of the Incomplete-Action Tracker.  Fields
not meaningful for the entry's kind are zeroed here (the C leaves them
uninitialized and never reads them). -/
structure bt_incomplete_action where
  node : RelFileNode
  is_split : Bool
  is_root : Bool
  leftblk : Nat
  rightblk : Nat
  delblk : Nat
deriving DecidableEq, Repr

/-- log_incomplete_split: append a SPLIT entry at the tail of the tracker. -/
def log_incomplete_split (actions : List bt_incomplete_action) (node : RelFileNode)
    (leftblk rightblk : Nat) (is_root : Bool) : List bt_incomplete_action :=
  actions ++ [{ node := node, is_split := true, is_root := is_root
                leftblk := leftblk, rightblk := rightblk, delblk := 0 }]

/-- forget_matching_split: remove the first SPLIT entry with the same relation
whose right block equals the downlink.  (An is_root mismatch is only logged in
the C code and does not affect the removal.) -/
def forget_matching_split (actions : List bt_incomplete_action) (node : RelFileNode)
    (downlink : Nat) (_is_root : Bool) : List bt_incomplete_action :=
  match actions with
  | [] => []
  | a :: rest =>
    if a.node = node ∧ a.is_split = true ∧ downlink = a.rightblk then rest
    else a :: forget_matching_split rest node downlink _is_root

/-- log_incomplete_deletion: append a DELETION entry at the tail of the tracker. -/
def log_incomplete_deletion (actions : List bt_incomplete_action) (node : RelFileNode)
    (delblk : Nat) : List bt_incomplete_action :=
  actions ++ [{ node := node, is_split := false, is_root := false
                leftblk := 0, rightblk := 0, delblk := delblk }]

/-- forget_matching_deletion: remove the first DELETION entry with the same
relation whose dead block matches. -/
def forget_matching_deletion (actions : List bt_incomplete_action) (node : RelFileNode)
    (delblk : Nat) : List bt_incomplete_action :=
  match actions with
  | [] => []
  | a :: rest =>
    if a.node = node ∧ a.is_split = false ∧ delblk = a.delblk then rest
    else a :: forget_matching_deletion rest node delblk

/-!
## Per-record page effects as a pipeline of page operations

Each redo routine touches a sequence of pages; every touched page is either
rewritten from scratch from record-determined content (`overwrite`: right split
sibling, deleted target page, new root, meta page, full-page backup image) or
read, checked against the record's LSN, and incrementally mutated only when the
page is older than the record (`guarded`: the idempotent-replay freshness
check).  `failOp` is an unconditional PANIC used when the record-determined
content itself cannot be computed.  Every write stamps the page with the
record's LSN (PageSetLSN + MarkBufferDirty).
-/

inductive PageOp where
  | guarded (node : RelFileNode) (blk : Nat) (f : Page → Except String Page)
  | overwrite (node : RelFileNode) (blk : Nat) (p : Page)
  | failOp (msg : String)

/-- Apply one page operation to the store. -/
def stepOp (lsn : Nat) (s : Store) : PageOp → Except String Store
  | .overwrite node blk p => .ok (writePage s node blk { p with lsn := lsn })
  | .guarded node blk f =>
    match readPage s node blk with
    | none => .ok s
    | some pg =>
      if lsn ≤ pg.lsn then .ok s
      else
        match f pg with
        | .error e => .error e
        | .ok p2 => .ok (writePage s node blk { p2 with lsn := lsn })
  | .failOp msg => .error msg

/-- Apply a record's page operations in order. -/
def runOps (lsn : Nat) : List PageOp → Store → Except String Store
  | [], s => .ok s
  | op :: rest, s =>
    match stepOp lsn s op with
    | .error e => .error e
    | .ok s2 => runOps lsn rest s2

/-- Whether `ops` contains a guarded operation at the given key. -/
def hasGuardAt (ops : List PageOp) (node : RelFileNode) (blk : Nat) : Prop :=
  ∃ f, PageOp.guarded node blk f ∈ ops

/-- The content of the last `overwrite` at the given key, if any. -/
def lastOv : List PageOp → RelFileNode → Nat → Option Page
  | [], _, _ => none
  | op :: rest, node, blk =>
    match lastOv rest node blk with
    | some p => some p
    | none =>
      match op with
      | .overwrite n b p => if n = node ∧ b = blk then some p else none
      | _ => none

/-- The page at a key is absent or at least as new as the record: the
freshness check will skip it. -/
def SafeAt (lsn : Nat) (s : Store) (node : RelFileNode) (blk : Nat) : Prop :=
  readPage s node blk = none ∨ ∃ p, readPage s node blk = some p ∧ lsn ≤ p.lsn

/-!
## Decoded log records

The Log Record Decoder's output: one strongly-typed view per record kind, with
the conditional payload pieces (downlink, left high key, new item, metadata)
as plain fields; the decoder guarantees well-formed input (see spec section
4.1), so fields are meaningful exactly when the corresponding opcode flags say
they are present.
-/

/-- xl_btreetid: target relation plus a tuple id (block, offset). -/
structure BtreeTid where
  node : RelFileNode
  tidBlock : Nat
  tidOffset : Nat
deriving DecidableEq, Repr

/-- xl_btree_metadata: the meta-page payload carried by some records. -/
structure XlBtreeMetadata where
  root : Nat
  level : Nat
  fastroot : Nat
  fastlevel : Nat
deriving DecidableEq, Repr

/-- xl_btree_insert plus its decoded payload.  `downlink` is meaningful only
for non-leaf inserts and `md` only for meta-carrying inserts. -/
structure XlBtreeInsert where
  target : BtreeTid
  downlink : Nat
  md : XlBtreeMetadata
  item : IndexTuple
deriving DecidableEq, Repr

/-- xl_btree_split plus its decoded payload.  `downlink` and `left_hikey` are
meaningful only when level > 0; `newitemoff`/`newitem` only when the new item
went to the left page; `rightItems` is the right page's item stream (highest
item number first, as written by _bt_restore_page). -/
structure XlBtreeSplit where
  node : RelFileNode
  leftsib : Nat
  rightsib : Nat
  rnext : Nat
  level : Nat
  firstright : Nat
  downlink : Nat
  left_hikey : IndexTuple
  newitemoff : Nat
  newitem : IndexTuple
  rightItems : List IndexTuple
deriving DecidableEq, Repr

/-- xl_btree_vacuum plus decoded offsets list. -/
structure XlBtreeVacuum where
  node : RelFileNode
  block : Nat
  lastBlockVacuumed : Nat
  unused : List Nat
deriving DecidableEq, Repr

/-- xl_btree_delete plus decoded offsets list (nitems = unused.length). -/
structure XlBtreeDelete where
  node : RelFileNode
  hnode : RelFileNode
  block : Nat
  unused : List Nat
deriving DecidableEq, Repr

/-- xl_btree_delete_page; target is the parent TID.  `md` is meaningful only
for the meta-update variant. -/
structure XlBtreeDeletePage where
  target : BtreeTid
  deadblk : Nat
  leftblk : Nat
  rightblk : Nat
  btpo_xact : Nat
  md : XlBtreeMetadata
deriving DecidableEq, Repr

/-- xl_btree_newroot; `items` is the carried item stream (empty when the
record carries none, i.e. xl_len == SizeOfBtreeNewroot). -/
structure XlBtreeNewroot where
  node : RelFileNode
  rootblk : Nat
  level : Nat
  items : List IndexTuple
deriving DecidableEq, Repr

/-- xl_btree_reuse_page. -/
structure XlBtreeReusePage where
  node : RelFileNode
  block : Nat
  latestRemovedXid : Nat
deriving DecidableEq, Repr

/-- The three DELETE_PAGE opcodes. -/
inductive DeletePageInfo where
  | plain
  | withMeta
  | halfDead
deriving DecidableEq, Repr

/-- One decoded record body, tagged by opcode (the isleaf/ismeta and
onleft/isroot flags are part of the opcode in btree_redo's dispatch). -/
inductive BtreeRecordBody where
  | insert (isleaf ismeta : Bool) (xlrec : XlBtreeInsert)
  | split (onleft isroot : Bool) (xlrec : XlBtreeSplit)
  | vacuum (xlrec : XlBtreeVacuum)
  | delete (xlrec : XlBtreeDelete)
  | deletePage (info : DeletePageInfo) (xlrec : XlBtreeDeletePage)
  | newroot (xlrec : XlBtreeNewroot)
  | reusePage (xlrec : XlBtreeReusePage)
deriving DecidableEq, Repr

/-- A full-page backup image carried by a record (generic WAL framing);
applied by RestoreBkpBlocks in preference to incremental redo for its block. -/
structure BkpImage where
  node : RelFileNode
  block : Nat
  page : Page
deriving DecidableEq, Repr

/-- An XLogRecord as seen by btree_redo: the decoded body plus up to three
backup block images.  IsBkpBlockApplied(record, i) is `bkpI.isSome`. -/
structure XLogRecord where
  body : BtreeRecordBody
  bkp0 : Option BkpImage
  bkp1 : Option BkpImage
  bkp2 : Option BkpImage
deriving DecidableEq, Repr

/-- RestoreBkpBlocks: write each carried full-page image verbatim (stamped
with the record's LSN by the runOps overwrite step). -/
def bkpOps1 : Option BkpImage → List PageOp
  | none => []
  | some img => [.overwrite img.node img.block img.page]

def restoreBkpBlocksOps (r : XLogRecord) : List PageOp :=
  bkpOps1 r.bkp0 ++ bkpOps1 r.bkp1 ++ bkpOps1 r.bkp2

/-- The function _bt_restore_page: re-enter the item stream onto a fresh page by inserting
each tuple at FirstOffsetNumber, so the rebuilt item list is the reverse of
the stream. -/
def bt_restore_items (stream : List IndexTuple) : List IndexTuple :=
  stream.foldl (fun acc it => it :: acc) []

/-- The function _bt_restore_meta: the meta page is re-initialized and rewritten wholesale
with the carried values (no freshness check; the LSN stamp comes from the
overwrite step). -/
def restoredMetaPage (md : XlBtreeMetadata) : Page :=
  { pageInit with
    pageMeta := some
      { btm_magic := BTREE_MAGIC, btm_version := BTREE_VERSION
        btm_root := md.root, btm_level := md.level
        btm_fastroot := md.fastroot, btm_fastlevel := md.fastlevel }
    special := { pageInit.special with btpo_flags := { noFlags with metaFlag := true } } }

def metaOverwriteOp (node : RelFileNode) (md : XlBtreeMetadata) : PageOp :=
  .overwrite node BTREE_METAPAGE (restoredMetaPage md)

/-- btree_xlog_insert, page effects: skip everything for a leaf non-meta
insert whose block was restored from a backup image; otherwise read the target
page (no create), skip if missing or not older than the record, else add the
carried item at the carried offset (PANIC if that fails); then, for a
meta-carrying insert, rewrite the meta page wholesale. -/
def btree_xlog_insert_ops (isleaf ismeta bkp0 : Bool) (x : XlBtreeInsert) : List PageOp :=
  if bkp0 ∧ ¬ismeta ∧ isleaf then []
  else
    (if ¬bkp0 then
      [.guarded x.target.node x.target.tidBlock fun page =>
        match PageAddItem page x.item x.target.tidOffset with
        | none => .error "btree_insert_redo: failed to add item"
        | some p2 => .ok p2]
    else []) ++
    (if ismeta then [metaOverwriteOp x.target.node x.md] else [])

/-- btree_xlog_split, left page incremental rebuild: delete the items moved to
the right page plus the old high key (if not rightmost, with the new item's
offset adjusted down by one), add the new item if it was inserted on the left,
append the new high key at P_HIKEY, and fix the next-link and flags. -/
def splitLeftFinish (x : XlBtreeSplit) (hikey : IndexTuple) (lpage2 : Page) :
    Except String Page :=
  match PageAddItem lpage2 hikey P_HIKEY with
  | none => .error "failed to add high key to left page after split"
  | some lpage3 =>
    .ok { lpage3 with
      special := { lpage3.special with
        btpo_flags := if x.level = 0 then leafFlag else noFlags
        btpo_next := x.rightsib
        btpo_cycleid := 0 } }

def splitLeftRebuild (onleft : Bool) (x : XlBtreeSplit) (hikey : IndexTuple)
    (lpage : Page) : Except String Page :=
  let maxoff := lpage.items.length
  let rightmost := P_RIGHTMOST lpage.special
  let deletable :=
    (if ¬rightmost then [P_HIKEY] else []) ++ List.range' x.firstright (maxoff + 1 - x.firstright)
  let newitemoff := if ¬rightmost then x.newitemoff - 1 else x.newitemoff
  let lpage1 := if deletable ≠ [] then PageIndexMultiDelete lpage deletable else lpage
  if onleft then
    match PageAddItem lpage1 x.newitem newitemoff with
    | none => .error "failed to add new item to left page after split"
    | some lpage2 => splitLeftFinish x hikey lpage2
  else splitLeftFinish x hikey lpage1

/-- The right (new) sibling page reconstructed from scratch by
btree_xlog_split: fresh page, links/level/flags from the record, item stream
restored verbatim. -/
def splitRightPage (x : XlBtreeSplit) : Page :=
  { pageInit with
    items := bt_restore_items x.rightItems
    special :=
      { btpo_prev := x.leftsib, btpo_next := x.rnext
        btpo_level := x.level, btpo_xact := 0
        btpo_flags := if x.level = 0 then leafFlag else noFlags
        btpo_cycleid := 0 } }

/-- btree_xlog_split, page effects: rebuild the right sibling from scratch; on
leaf level take the left page's new high key from the right page's first data
key (on upper levels it was carried in the record, when not superseded by a
backup image); rebuild the left sibling under the freshness check unless its
backup image was applied; fix the prev-link of the page right of the new right
sibling, likewise guarded. -/
def btree_xlog_split_ops (onleft _isroot bkp0 bkp1 : Bool) (x : XlBtreeSplit) : List PageOp :=
  let rpage := splitRightPage x
  let hikeyE : Except String IndexTuple :=
    if x.level = 0 then
      match pageGetItem rpage (P_FIRSTDATAKEY rpage.special) with
      | none => .error "btree_xlog_split: right page first data key missing"
      | some it => .ok it
    else .ok x.left_hikey
  match hikeyE with
  | .error e => [.overwrite x.node x.rightsib rpage, .failOp e]
  | .ok hikey =>
    [.overwrite x.node x.rightsib rpage] ++
    (if ¬bkp0 then
      [.guarded x.node x.leftsib fun lpage => splitLeftRebuild onleft x hikey lpage]
    else []) ++
    (if x.rnext ≠ P_NONE ∧ ¬bkp1 then
      [.guarded x.node x.rnext fun page =>
        .ok { page with special := { page.special with btpo_prev := x.rightsib } }]
    else [])

/-- btree_xlog_vacuum, page effects.  The hot-standby pin-and-release loop
over the blocks between lastBlockVacuumed+1 and the target reads pages but
mutates nothing, so it contributes no page operation.  If the target block was
restored from a backup image, or is missing, nothing more is done; otherwise,
under the freshness check, multi-delete the carried offsets and clear
BTP_HAS_GARBAGE. -/
def btree_xlog_vacuum_ops (bkp0 : Bool) (x : XlBtreeVacuum) : List PageOp :=
  if bkp0 then []
  else
    [.guarded x.node x.block fun page =>
      let page1 := if x.unused ≠ [] then PageIndexMultiDelete page x.unused else page
      .ok { page1 with
        special := { page1.special with
          btpo_flags := { page1.special.btpo_flags with hasGarbage := false } } }]

/-- btree_xlog_delete, page effects: same shape as vacuum but with an
ordinary lock and no pin loop. -/
def btree_xlog_delete_ops (bkp0 : Bool) (x : XlBtreeDelete) : List PageOp :=
  if bkp0 then []
  else
    [.guarded x.node x.block fun page =>
      let page1 := if x.unused ≠ [] then PageIndexMultiDelete page x.unused else page
      .ok { page1 with
        special := { page1.special with
          btpo_flags := { page1.special.btpo_flags with hasGarbage := false } } }]

/-- btree_xlog_delete_page, parent page fix: if the target offset is at or
beyond the parent's max offset, this is the half-dead collapse — delete that
item and set BTP_HALF_DEAD; otherwise rewrite the preceding item's TID to
point at the dead page's right sibling (offset P_HIKEY) and delete the next
item. -/
def deletePageParentFix (x : XlBtreeDeletePage) (page : Page) : Except String Page :=
  let poffset := x.target.tidOffset
  if poffset ≥ page.items.length then
    match PageIndexTupleDelete page poffset with
    | none => .error "btree_xlog_delete_page: parent item missing"
    | some p2 =>
      .ok { p2 with
        special := { p2.special with
          btpo_flags := { p2.special.btpo_flags with halfDead := true } } }
  else
    match pageGetItem page poffset with
    | none => .error "btree_xlog_delete_page: parent item missing"
    | some itup =>
      let page1 := { page with
        items := page.items.set (poffset - 1)
          { itup with tidBlock := x.rightblk, tidOffset := P_HIKEY } }
      match PageIndexTupleDelete page1 (poffset + 1) with
      | none => .error "btree_xlog_delete_page: parent item missing"
      | some p2 => .ok p2

/-- The dead target page rewritten as an empty DELETED page, keeping its
former sibling links and the deleting transaction id (btpo union holds xact). -/
def deletedTargetPage (x : XlBtreeDeletePage) : Page :=
  { pageInit with
    special :=
      { btpo_prev := x.leftblk, btpo_next := x.rightblk
        btpo_level := 0, btpo_xact := x.btpo_xact
        btpo_flags := { noFlags with deleted := true }
        btpo_cycleid := 0 } }

/-- btree_xlog_delete_page, page effects: fix the parent (guarded, unless its
backup image was applied), the right sibling's prev-link (guarded, bkp slot 1)
and the left sibling's next-link (guarded, bkp slot 2, only if a left sibling
exists); rewrite the target as an empty deleted page; for the meta variant,
rewrite the meta page. -/
def btree_xlog_delete_page_ops (info : DeletePageInfo) (bkp0 bkp1 bkp2 : Bool)
    (x : XlBtreeDeletePage) : List PageOp :=
  (if ¬bkp0 then
    [.guarded x.target.node x.target.tidBlock fun page => deletePageParentFix x page]
  else []) ++
  (if ¬bkp1 then
    [.guarded x.target.node x.rightblk fun page =>
      .ok { page with special := { page.special with btpo_prev := x.leftblk } }]
  else []) ++
  (if ¬bkp2 ∧ x.leftblk ≠ P_NONE then
    [.guarded x.target.node x.leftblk fun page =>
      .ok { page with special := { page.special with btpo_next := x.rightblk } }]
  else []) ++
  [.overwrite x.target.node x.deadblk (deletedTargetPage x)] ++
  (if info = DeletePageInfo.withMeta then [metaOverwriteOp x.target.node x.md] else [])

/-- The new root page built by btree_xlog_newroot: fresh page flagged ROOT
(and LEAF at level 0), no siblings, carried items restored. -/
def newrootPage (x : XlBtreeNewroot) : Page :=
  { pageInit with
    items := bt_restore_items x.items
    special :=
      { btpo_prev := P_NONE, btpo_next := P_NONE
        btpo_level := x.level, btpo_xact := 0
        btpo_flags := { noFlags with root := true, leaf := x.level = 0 }
        btpo_cycleid := 0 } }

/-- btree_xlog_newroot, page effects: rewrite the root page from scratch and
unconditionally rewrite the meta page to point at it (root and fast root). -/
def btree_xlog_newroot_ops (x : XlBtreeNewroot) : List PageOp :=
  [.overwrite x.node x.rootblk (newrootPage x),
   metaOverwriteOp x.node
     { root := x.rootblk, level := x.level, fastroot := x.rootblk, fastlevel := x.level }]

/-- The tracker effect of one record.  INSERT (non-leaf) forgets the split the
carried downlink completes; SPLIT first forgets the lower-level split its own
carried downlink completes (level > 0 only) and then logs its own SPLIT entry;
DELETE_PAGE forgets the completed deletion and, for the half-dead variant,
logs a DELETION entry for the parent; NEWROOT, when it carries items, forgets
the root split completed by the downlink found at offset P_FIRSTKEY of the
restored page.  The extraction of that downlink is the only fallible step and
depends only on the record. -/
def btree_redo_actions (r : XLogRecord) (actions : List bt_incomplete_action) :
    Except String (List bt_incomplete_action) :=
  match r.body with
  | .insert isleaf _ x =>
    .ok (if ¬isleaf then forget_matching_split actions x.target.node x.downlink false
         else actions)
  | .split _ isroot x =>
    let actions1 :=
      if x.level > 0 then forget_matching_split actions x.node x.downlink false
      else actions
    .ok (log_incomplete_split actions1 x.node x.leftsib x.rightsib isroot)
  | .vacuum _ => .ok actions
  | .delete _ => .ok actions
  | .deletePage info x =>
    let actions1 := forget_matching_deletion actions x.target.node x.deadblk
    .ok (if info = DeletePageInfo.halfDead then
          log_incomplete_deletion actions1 x.target.node x.target.tidBlock
         else actions1)
  | .newroot x =>
    if x.items ≠ [] then
      match pageGetItem (newrootPage x) P_FIRSTKEY with
      | none => .error "btree_xlog_newroot: downlink item missing"
      | some itup => .ok (forget_matching_split actions x.node itup.tidBlock true)
    else .ok actions
  | .reusePage _ => .ok actions

/-- The recovery-time environment: hot-standby state and the external
registries consulted by the conflict resolver. -/
structure HeapItemId where
  redirectTo : Option Nat
  hasStorage : Bool
  isDead : Bool
  xmin : Nat
  xmax : Nat
deriving DecidableEq, Repr

abbrev HeapPage := List HeapItemId

abbrev HeapStore := List (RelFileNode × Nat × HeapPage)

def readHeapPage : HeapStore → RelFileNode → Nat → Option HeapPage
  | [], _, _ => none
  | (n, b, p) :: rest, node, blk =>
    if n = node ∧ b = blk then some p else readHeapPage rest node blk

structure RedoEnv where
  inHotStandby : Bool
  standbySnapshotReady : Bool
  countDBBackends : Nat
  heapStore : HeapStore
deriving DecidableEq, Repr

/-- The page effects of one full btree_redo call: for a REUSE_PAGE record in
hot standby the routine returns before RestoreBkpBlocks; otherwise the backup
images are applied first and then the per-opcode routine runs. -/
def btree_redo_ops (env : RedoEnv) (r : XLogRecord) : List PageOp :=
  match r.body with
  | .insert isleaf ismeta x =>
    restoreBkpBlocksOps r ++ btree_xlog_insert_ops isleaf ismeta r.bkp0.isSome x
  | .split onleft isroot x =>
    restoreBkpBlocksOps r ++ btree_xlog_split_ops onleft isroot r.bkp0.isSome r.bkp1.isSome x
  | .vacuum x =>
    restoreBkpBlocksOps r ++ btree_xlog_vacuum_ops r.bkp0.isSome x
  | .delete x =>
    restoreBkpBlocksOps r ++ btree_xlog_delete_ops r.bkp0.isSome x
  | .deletePage info x =>
    restoreBkpBlocksOps r ++
      btree_xlog_delete_page_ops info r.bkp0.isSome r.bkp1.isSome r.bkp2.isSome x
  | .newroot x =>
    restoreBkpBlocksOps r ++ btree_xlog_newroot_ops x
  | .reusePage _ =>
    if env.inHotStandby then [] else restoreBkpBlocksOps r

/-- The replay state handed around by the recovery driver: the page store and
the Incomplete-Action Tracker. -/
structure BtState where
  store : Store
  actions : List bt_incomplete_action
deriving DecidableEq, Repr

/-- btree_redo: apply one record.  The hot-standby conflict resolution for
DELETE and REUSE_PAGE records reads pages and notifies an external standby
mechanism but performs no page or tracker mutation, so it does not contribute
to the state transition (it is modelled separately as
btree_xlog_delete_get_latestRemovedXid). -/
def btree_redo (env : RedoEnv) (lsn : Nat) (r : XLogRecord) (st : BtState) :
    Except String BtState :=
  match runOps lsn (btree_redo_ops env r) st.store with
  | .error e => .error e
  | .ok s2 =>
    match btree_redo_actions r st.actions with
    | .error e => .error e
    | .ok a2 => .ok { store := s2, actions := a2 }

/-- btree_xlog_startup: reset the tracker to empty. -/
def btree_xlog_startup (st : BtState) : BtState :=
  { st with actions := [] }

/-- btree_safe_restartpoint: true iff the tracker is empty. -/
def btree_safe_restartpoint (actions : List bt_incomplete_action) : Bool :=
  match actions with
  | [] => true
  | _ :: _ => false

/-!
## Recovery Conflict Resolver
-/

/-- TransactionIdFollows: 32-bit modular transaction id comparison
((int32)(id1 - id2) > 0). -/
def TransactionIdFollows (id1 id2 : Nat) : Bool :=
  let d := (id1 + 2 ^ 32 - id2 % 2 ^ 32) % 2 ^ 32
  decide (0 < d ∧ d < 2 ^ 31)

/-- Follow heap line-pointer redirections until something useful; fuelled
(the C while-loop assumes well-formed redirect chains). `none` models an
out-of-range or cyclic chain. -/
def followRedirects (hpage : HeapPage) : Nat → Nat → Option HeapItemId
  | _, 0 => none
  | off, fuel + 1 =>
    match hpage.get? (off - 1) with
    | none => none
    | some item =>
      match item.redirectTo with
      | some off2 => followRedirects hpage off2 fuel
      | none => some item

/-- The loop of btree_xlog_delete_get_latestRemovedXid over the to-be-deleted
index items: follow each tuple's TID to its heap page, take xmin/xmax of
stored tuples, ignore dead stubs; a missing heap page aborts the walk with
InvalidTransactionId.  The second component counts the calls made to the
page-read interface. -/
def deleteXidLoop (hs : HeapStore) (hnode : RelFileNode) (ipage : Page) :
    List Nat → Nat → Nat → Nat × Nat
  | [], latest, count => (latest, count)
  | off :: rest, latest, count =>
    match pageGetItem ipage off with
    | none =>
      -- the C dereferences an out-of-range item id here (garbage); modelled as skip
      deleteXidLoop hs hnode ipage rest latest count
    | some itup =>
      match readHeapPage hs hnode itup.tidBlock with
      | none => (InvalidTransactionId, count + 1)
      | some hpage =>
        match followRedirects hpage itup.tidOffset (hpage.length + 1) with
        | none => deleteXidLoop hs hnode ipage rest latest (count + 1)
        | some hitem =>
          if hitem.hasStorage then
            let l1 := if TransactionIdFollows hitem.xmin latest then hitem.xmin else latest
            let l2 := if TransactionIdFollows hitem.xmax l1 then hitem.xmax else l1
            deleteXidLoop hs hnode ipage rest l2 (count + 1)
          else
            deleteXidLoop hs hnode ipage rest latest (count + 1)

/-- btree_xlog_delete_get_latestRemovedXid: compute the most recent
transaction id whose effects a DELETE record removes.  Fast path: with zero
active backends (CountDBBackends) return InvalidTransactionId immediately,
before reading any page.  The second component counts the calls made to the
page-read interface (index page and heap pages). -/
def btree_xlog_delete_get_latestRemovedXid (backends : Nat) (hs : HeapStore)
    (s : Store) (x : XlBtreeDelete) : Nat × Nat :=
  if backends = 0 then (InvalidTransactionId, 0)
  else
    match readPage s x.node x.block with
    | none => (InvalidTransactionId, 1)
    | some ipage => deleteXidLoop hs x.hnode ipage x.unused InvalidTransactionId 1

/-!
## Cleanup Pass

`_bt_insert_parent` and `_bt_pagedel` live in nbtinsert.c / nbtpage.c, which
are not part of the source under study; they are modelled from the spec below.
The cleanup control flow itself (readability checks, PANIC for split halves,
no-op skip for missing deletion targets, tracker reset) follows
btree_xlog_cleanup.
-/

/-- Modelled from the spec: `_bt_insert_parent` (nbtinsert.c, not under src/).
Spec: the Cleanup Pass "finalizes a split's parent-insertion"; afterwards "the
parent page contains a downlink to the right block".  Modelled as: find the
first non-leaf page of the relation holding a downlink to the left block and
insert, right after it, a downlink item whose TID block is the right block;
if no parent exists (a root split pending a NEWROOT), the store is unchanged
(building a new root is outside the claims below). -/
def bt_insert_parent_model (s0 : Store) (node : RelFileNode) (leftblk rightblk : Nat)
    (_is_root _is_only : Bool) : Store :=
  let rec find : Store → Option (Nat × Page)
    | [] => none
    | (n, b, p) :: rest =>
      if n = node ∧ p.special.btpo_flags.leaf = false ∧
          p.items.any (fun it => it.tidBlock == leftblk) = true then some (b, p)
      else find rest
  match find s0 with
  | none => s0
  | some (b, p) =>
    let idx := p.items.findIdx fun it => it.tidBlock == leftblk
    let dlink : IndexTuple := { tidBlock := rightblk, tidOffset := P_HIKEY, data := [] }
    writePage s0 node b { p with items := insertAt p.items (idx + 1) dlink }

/-- Modelled from the spec: `_bt_pagedel` (nbtpage.c, not under src/).  Spec:
the Cleanup Pass "completes a half-dead page's deletion"; the deleted page is
"reinitialize[d] ... as an empty page stamped DELETED".  Returns the number of
pages deleted (the C PANICs when this is 0). -/
def bt_pagedel_model (s : Store) (node : RelFileNode) (blk : Nat) : Store × Nat :=
  match readPage s node blk with
  | none => (s, 0)
  | some _ =>
    (writePage s node blk
      { pageInit with
        special := { pageInit.special with
          btpo_flags := { noFlags with deleted := true } } }, 1)

/-- The loop of btree_xlog_cleanup over the tracker entries: a SPLIT entry
whose left or right block cannot be read is a PANIC (those pages were written
earlier in this same recovery pass); a DELETION entry whose block cannot be
read is skipped as a no-op. -/
def btree_xlog_cleanup_go (s : Store) :
    List bt_incomplete_action → Except String Store
  | [] => .ok s
  | a :: rest =>
    if a.is_split then
      match readPage s a.node a.leftblk with
      | none => .error "btree_xlog_cleanup: left block unfound"
      | some lpage =>
        match readPage s a.node a.rightblk with
        | none => .error "btree_xlog_cleanup: right block unfound"
        | some rpage =>
          let is_only := P_LEFTMOST lpage.special && P_RIGHTMOST rpage.special
          btree_xlog_cleanup_go
            (bt_insert_parent_model s a.node a.leftblk a.rightblk a.is_root is_only) rest
    else
      match readPage s a.node a.delblk with
      | none => btree_xlog_cleanup_go s rest
      | some _ =>
        let r := bt_pagedel_model s a.node a.delblk
        if r.2 = 0 then .error "btree_xlog_cleanup: _bt_pagedel failed"
        else btree_xlog_cleanup_go r.1 rest

/-- btree_xlog_cleanup: drain the tracker, then reset it to empty. -/
def btree_xlog_cleanup (st : BtState) : Except String BtState :=
  match btree_xlog_cleanup_go st.store st.actions with
  | .error e => .error e
  | .ok s2 => .ok { store := s2, actions := [] }

def wNode : RelFileNode := { spcNode := 1, dbNode := 2, relNode := 3 }

def wEnv : RedoEnv :=
  { inHotStandby := false, standbySnapshotReady := false, countDBBackends := 0
    heapStore := [] }

def wLeafPage : Page :=
  { pageInit with
    lsn := 10
    special := { pageInit.special with btpo_flags := leafFlag } }

def wInsRec : XLogRecord :=
  { body := BtreeRecordBody.insert true false
      { target := { node := wNode, tidBlock := 2, tidOffset := 1 }
        downlink := 0, md := { root := 0, level := 0, fastroot := 0, fastlevel := 0 }
        item := { tidBlock := 7, tidOffset := 1, data := [42] } }
    bkp0 := none, bkp1 := none, bkp2 := none }

def wSt : BtState := { store := [(wNode, 2, wLeafPage)], actions := [] }

def wSt1 : BtState :=
  match btree_redo wEnv 20 wInsRec wSt with
  | .ok s => s
  | .error _ => { store := [], actions := [] }

def wDelEntry : bt_incomplete_action :=
  { node := wNode, is_split := false, is_root := false
    leftblk := 0, rightblk := 0, delblk := 5 }

def wCleanupSt : BtState := { store := [], actions := [wDelEntry] }

def wCleanupSt2 : BtState :=
  match btree_xlog_cleanup wCleanupSt with
  | .ok s => s
  | .error _ => { store := [(wNode, 0, pageInit)], actions := [wDelEntry] }

def wDelRec : XlBtreeDelete := { node := wNode, hnode := wNode, block := 2, unused := [1] }

def wSplitEntry : bt_incomplete_action :=
  { node := wNode, is_split := true, is_root := false
    leftblk := 4, rightblk := 5, delblk := 0 }

def wSplitRec : XLogRecord :=
  { body := BtreeRecordBody.split false false
      { node := wNode, leftsib := 4, rightsib := 5, rnext := 0
        level := 1, firstright := 1, downlink := 9
        left_hikey := { tidBlock := 9, tidOffset := 1, data := [3] }
        newitemoff := 0, newitem := { tidBlock := 0, tidOffset := 0, data := [] }
        rightItems := [{ tidBlock := 11, tidOffset := 1, data := [8] }] }
    bkp0 := none, bkp1 := none, bkp2 := none }

def wSplitX : XlBtreeSplit :=
  match wSplitRec.body with
  | BtreeRecordBody.split _ _ x => x
  | _ => { node := wNode, leftsib := 0, rightsib := 0, rnext := 0, level := 0
           firstright := 0, downlink := 0
           left_hikey := { tidBlock := 0, tidOffset := 0, data := [] }
           newitemoff := 0, newitem := { tidBlock := 0, tidOffset := 0, data := [] }
           rightItems := [] }

def wSplitSt : BtState :=
  { store := []
    actions := [{ node := wNode, is_split := true, is_root := false
                  leftblk := 8, rightblk := 9, delblk := 0 }] }

def wSplitSt1 : BtState :=
  match btree_redo wEnv 30 wSplitRec wSplitSt with
  | .ok s => s
  | .error _ => { store := [], actions := [] }

def cMetaMdOld : XlBtreeMetadata := { root := 2, level := 1, fastroot := 2, fastlevel := 1 }

def cMetaMd : XlBtreeMetadata := { root := 3, level := 1, fastroot := 3, fastlevel := 1 }

/-- The meta page as it stands before the counterexample replay: stamped with
LSN 100, newer than the record about to be replayed. -/
def cMetaPageOld : Page := { restoredMetaPage cMetaMdOld with lsn := 100 }

def cMetaRec : XLogRecord :=
  { body := BtreeRecordBody.insert false true
      { target := { node := wNode, tidBlock := 7, tidOffset := 1 }
        downlink := 0, md := cMetaMd
        item := { tidBlock := 0, tidOffset := 0, data := [] } }
    bkp0 := none, bkp1 := none, bkp2 := none }

def cMetaX : XlBtreeInsert :=
  match cMetaRec.body with
  | BtreeRecordBody.insert _ _ x => x
  | _ => { target := { node := wNode, tidBlock := 0, tidOffset := 0 }
           downlink := 0, md := cMetaMdOld
           item := { tidBlock := 0, tidOffset := 0, data := [] } }

def cMetaSt : BtState := { store := [(wNode, 0, cMetaPageOld)], actions := [] }

def cMetaSt1 : BtState :=
  match btree_redo wEnv 50 cMetaRec cMetaSt with
  | .ok s => s
  | .error _ => cMetaSt

/-- The matching predicate of forget_matching_deletion. -/
def delMatch (node : RelFileNode) (delblk : Nat) (a : bt_incomplete_action) : Bool :=
  decide (a.node = node ∧ a.is_split = false ∧ delblk = a.delblk)

/-- Number of DELETION entries for (node, delblk) in the tracker. -/
def countDel (actions : List bt_incomplete_action) (node : RelFileNode) (delblk : Nat) : Nat :=
  actions.countP (delMatch node delblk)

/-- The matching predicate of forget_matching_split. -/
def splitMatch (node : RelFileNode) (downlink : Nat) (a : bt_incomplete_action) : Bool :=
  decide (a.node = node ∧ a.is_split = true ∧ downlink = a.rightblk)

/-- Number of SPLIT entries for (node, right block = downlink) in the tracker. -/
def countSplit (actions : List bt_incomplete_action) (node : RelFileNode) (downlink : Nat) : Nat :=
  actions.countP (splitMatch node downlink)

/-- The left leaf page before the witness split: two items, rightmost. -/
def c2LeftPage : Page :=
  { pageInit with
    lsn := 10
    items := [{ tidBlock := 8, tidOffset := 1, data := [3] },
              { tidBlock := 9, tidOffset := 1, data := [5] }]
    special := { pageInit.special with btpo_flags := leafFlag } }

/-- A non-leaf parent page with room for the downlink. -/
def c2ParentPage : Page :=
  { pageInit with
    lsn := 20
    special := { pageInit.special with btpo_level := 1 } }

def c2R1 : XLogRecord :=
  { body := BtreeRecordBody.split false false
      { node := wNode, leftsib := 1, rightsib := 2, rnext := 0
        level := 0, firstright := 2, downlink := 0
        left_hikey := { tidBlock := 0, tidOffset := 0, data := [] }
        newitemoff := 0, newitem := { tidBlock := 0, tidOffset := 0, data := [] }
        rightItems := [{ tidBlock := 9, tidOffset := 1, data := [5] }] }
    bkp0 := none, bkp1 := none, bkp2 := none }

def c2X1 : XlBtreeSplit :=
  match c2R1.body with
  | BtreeRecordBody.split _ _ x => x
  | _ => { node := wNode, leftsib := 0, rightsib := 0, rnext := 0, level := 0
           firstright := 0, downlink := 0
           left_hikey := { tidBlock := 0, tidOffset := 0, data := [] }
           newitemoff := 0, newitem := { tidBlock := 0, tidOffset := 0, data := [] }
           rightItems := [] }

def c2R2 : XLogRecord :=
  { body := BtreeRecordBody.insert false false
      { target := { node := wNode, tidBlock := 3, tidOffset := 1 }
        downlink := 2, md := { root := 0, level := 0, fastroot := 0, fastlevel := 0 }
        item := { tidBlock := 2, tidOffset := 1, data := [5] } }
    bkp0 := none, bkp1 := none, bkp2 := none }

def c2X2 : XlBtreeInsert :=
  match c2R2.body with
  | BtreeRecordBody.insert _ _ x => x
  | _ => { target := { node := wNode, tidBlock := 0, tidOffset := 0 }
           downlink := 0, md := { root := 0, level := 0, fastroot := 0, fastlevel := 0 }
           item := { tidBlock := 0, tidOffset := 0, data := [] } }

def c2St0 : BtState :=
  { store := [(wNode, 1, c2LeftPage), (wNode, 3, c2ParentPage)], actions := [] }

def c2St1 : BtState :=
  match btree_redo wEnv 100 c2R1 c2St0 with
  | .ok s => s
  | .error _ => { store := [], actions := [] }

def c2St2 : BtState :=
  match btree_redo wEnv 101 c2R2 c2St1 with
  | .ok s => s
  | .error _ => { store := [], actions := [] }

def c5R1 : XLogRecord :=
  { body := BtreeRecordBody.deletePage DeletePageInfo.halfDead
      { target := { node := wNode, tidBlock := 2, tidOffset := 1 }
        deadblk := 3, leftblk := 0, rightblk := 4, btpo_xact := 7
        md := { root := 0, level := 0, fastroot := 0, fastlevel := 0 } }
    bkp0 := none, bkp1 := none, bkp2 := none }

def c5X1 : XlBtreeDeletePage :=
  match c5R1.body with
  | BtreeRecordBody.deletePage _ x => x
  | _ => { target := { node := wNode, tidBlock := 0, tidOffset := 0 }
           deadblk := 0, leftblk := 0, rightblk := 0, btpo_xact := 0
           md := { root := 0, level := 0, fastroot := 0, fastlevel := 0 } }

def c5R2 : XLogRecord :=
  { body := BtreeRecordBody.deletePage DeletePageInfo.plain
      { target := { node := wNode, tidBlock := 5, tidOffset := 1 }
        deadblk := 2, leftblk := 0, rightblk := 6, btpo_xact := 8
        md := { root := 0, level := 0, fastroot := 0, fastlevel := 0 } }
    bkp0 := none, bkp1 := none, bkp2 := none }

def c5X2 : XlBtreeDeletePage :=
  match c5R2.body with
  | BtreeRecordBody.deletePage _ x => x
  | _ => c5X1

def c5St0 : BtState :=
  { store := []
    actions := [{ node := wNode, is_split := false, is_root := false
                  leftblk := 0, rightblk := 0, delblk := 3 }] }

def c5St1 : BtState :=
  match btree_redo wEnv 70 c5R1 c5St0 with
  | .ok s => s
  | .error _ => { store := [], actions := [] }

def c5St2 : BtState :=
  match btree_redo wEnv 71 c5R2 c5St1 with
  | .ok s => s
  | .error _ => { store := [], actions := [] }

def c10InsRec : XLogRecord :=
  { body := BtreeRecordBody.insert false true
      { target := { node := wNode, tidBlock := 9, tidOffset := 1 }
        downlink := 5, md := cMetaMd
        item := { tidBlock := 5, tidOffset := 1, data := [2] } }
    bkp0 := none, bkp1 := none, bkp2 := none }

def c10InsX : XlBtreeInsert :=
  match c10InsRec.body with
  | BtreeRecordBody.insert _ _ x => x
  | _ => cMetaX

def c10St : BtState :=
  { store := []
    actions := [{ node := wNode, is_split := true, is_root := false
                  leftblk := 4, rightblk := 5, delblk := 0 }] }

def c10VacRec : XLogRecord :=
  { body := BtreeRecordBody.vacuum
      { node := wNode, block := 9, lastBlockVacuumed := 0, unused := [1] }
    bkp0 := none, bkp1 := none, bkp2 := none }

def c10VacX : XlBtreeVacuum :=
  match c10VacRec.body with
  | BtreeRecordBody.vacuum x => x
  | _ => { node := wNode, block := 0, lastBlockVacuumed := 0, unused := [] }

def c10DelRec : XLogRecord :=
  { body := BtreeRecordBody.delete
      { node := wNode, hnode := wNode, block := 9, unused := [1] }
    bkp0 := none, bkp1 := none, bkp2 := none }

def c10DelX : XlBtreeDelete :=
  match c10DelRec.body with
  | BtreeRecordBody.delete x => x
  | _ => { node := wNode, hnode := wNode, block := 0, unused := [] }

def c10Empty : BtState := { store := [], actions := [] }

theorem readPage_writePage_same (s : Store) (n : RelFileNode) (b : Nat) (p : Page) :
    readPage (writePage s n b p) n b = some p := by
  induction s with
  | nil => simp [writePage, readPage]
  | cons head rest ih =>
    obtain ⟨n', b', p'⟩ := head
    by_cases h : n' = n ∧ b' = b
    · simp [writePage, readPage, h]
    · simp [writePage, readPage, h, ih]

theorem readPage_writePage_other (s : Store) (n n' : RelFileNode) (b b' : Nat) (p : Page)
    (h : ¬(n = n' ∧ b = b')) :
    readPage (writePage s n b p) n' b' = readPage s n' b' := by
  induction s with
  | nil =>
    simp only [writePage, readPage]
    rw [if_neg h]
  | cons head rest ih =>
    obtain ⟨hn, hb, hp⟩ := head
    simp only [writePage]
    by_cases hk : hn = n ∧ hb = b
    · rw [if_pos hk]
      simp only [readPage]
      obtain ⟨rfl, rfl⟩ := hk
      rw [if_neg h, if_neg h]
    · rw [if_neg hk]
      simp only [readPage]
      by_cases hk2 : hn = n' ∧ hb = b'
      · rw [if_pos hk2, if_pos hk2]
      · rw [if_neg hk2, if_neg hk2, ih]

theorem runOps_append (lsn : Nat) (l1 l2 : List PageOp) (s : Store) :
    runOps lsn (l1 ++ l2) s =
      match runOps lsn l1 s with
      | .error e => .error e
      | .ok s2 => runOps lsn l2 s2 := by
  induction l1 generalizing s with
  | nil => simp [runOps]
  | cons op rest ih =>
    simp only [List.cons_append, runOps]
    cases stepOp lsn s op with
    | error e => rfl
    | ok s2 => exact ih s2

theorem stepOp_safe_preserved (lsn : Nat) (s s2 : Store) (op : PageOp)
    (node : RelFileNode) (blk : Nat)
    (hstep : stepOp lsn s op = .ok s2) (hsafe : SafeAt lsn s node blk) :
    SafeAt lsn s2 node blk := by
  cases op with
  | failOp msg => simp [stepOp] at hstep
  | overwrite n b p =>
    simp only [stepOp, Except.ok.injEq] at hstep
    subst hstep
    by_cases hk : n = node ∧ b = blk
    · obtain ⟨rfl, rfl⟩ := hk
      right
      exact ⟨_, readPage_writePage_same s n b _, le_refl _⟩
    · rw [SafeAt, readPage_writePage_other s n node b blk _ hk]
      exact hsafe
  | guarded n b f =>
    by_cases hk : n = node ∧ b = blk
    · obtain ⟨rfl, rfl⟩ := hk
      rcases hsafe with hnone | ⟨p, hp, hle⟩
      · simp only [stepOp, hnone] at hstep
        cases hstep
        exact .inl hnone
      · simp only [stepOp, hp, if_pos hle] at hstep
        cases hstep
        exact .inr ⟨p, hp, hle⟩
    · have hread : ∀ t, readPage (writePage s n b t) node blk = readPage s node blk :=
        fun t => readPage_writePage_other s n node b blk t hk
      rcases hh : readPage s n b with _ | pg
      · simp only [stepOp, hh] at hstep; cases hstep; exact hsafe
      · simp only [stepOp, hh] at hstep
        by_cases hle : lsn ≤ pg.lsn
        · rw [if_pos hle] at hstep; cases hstep; exact hsafe
        · rw [if_neg hle] at hstep
          rcases hf : f pg with e | p2
          · simp [hf] at hstep
          · simp only [hf, Except.ok.injEq] at hstep
            subst hstep
            rw [SafeAt, hread]
            exact hsafe

theorem runOps_safe_preserved (lsn : Nat) (ops : List PageOp) (s t : Store)
    (node : RelFileNode) (blk : Nat)
    (hrun : runOps lsn ops s = .ok t) (hsafe : SafeAt lsn s node blk) :
    SafeAt lsn t node blk := by
  induction ops generalizing s with
  | nil => simp only [runOps, Except.ok.injEq] at hrun; subst hrun; exact hsafe
  | cons op rest ih =>
    simp only [runOps] at hrun
    rcases hstep : stepOp lsn s op with e | s2
    · rw [hstep] at hrun; cases hrun
    · rw [hstep] at hrun
      exact ih s2 hrun (stepOp_safe_preserved lsn s s2 op node blk hstep hsafe)

theorem runOps_preserve_some (lsn : Nat) (ops : List PageOp) (s t : Store)
    (node : RelFileNode) (blk : Nat) (p : Page)
    (hrun : runOps lsn ops s = .ok t)
    (hno : lastOv ops node blk = none)
    (hp : readPage s node blk = some p) (hle : lsn ≤ p.lsn) :
    readPage t node blk = some p := by
  induction ops generalizing s with
  | nil => simp only [runOps, Except.ok.injEq] at hrun; subst hrun; exact hp
  | cons op rest ih =>
    have hrest : lastOv rest node blk = none := by
      rcases h : lastOv rest node blk with _ | q
      · rfl
      · simp [lastOv, h] at hno
    simp only [runOps] at hrun
    rcases hstep : stepOp lsn s op with e | s2
    · rw [hstep] at hrun; cases hrun
    · rw [hstep] at hrun
      cases op with
      | failOp msg => simp [stepOp] at hstep
      | overwrite n b q =>
        have hk : ¬(n = node ∧ b = blk) := by
          intro hkey
          simp [lastOv, hrest, hkey] at hno
        simp only [stepOp, Except.ok.injEq] at hstep
        refine ih s2 hrun hrest ?_
        rw [← hstep, readPage_writePage_other s n node b blk _ hk]
        exact hp
      | guarded n b f =>
        by_cases hk : n = node ∧ b = blk
        · obtain ⟨rfl, rfl⟩ := hk
          simp only [stepOp, hp, if_pos hle] at hstep
          cases hstep
          exact ih _ hrun hrest hp
        · have hpres : readPage s2 node blk = readPage s node blk := by
            rcases hh : readPage s n b with _ | pg
            · simp only [stepOp, hh] at hstep; cases hstep; rfl
            · simp only [stepOp, hh] at hstep
              by_cases hle2 : lsn ≤ pg.lsn
              · rw [if_pos hle2] at hstep; cases hstep; rfl
              · rw [if_neg hle2] at hstep
                rcases hf : f pg with e | p2
                · simp [hf] at hstep
                · simp only [hf, Except.ok.injEq] at hstep
                  subst hstep
                  exact readPage_writePage_other s n node b blk _ hk
          exact ih s2 hrun hrest (by rw [hpres]; exact hp)

theorem runOps_lastOv (lsn : Nat) (ops : List PageOp) (s t : Store)
    (node : RelFileNode) (blk : Nat) (c : Page)
    (hrun : runOps lsn ops s = .ok t)
    (hc : lastOv ops node blk = some c) :
    readPage t node blk = some { c with lsn := lsn } := by
  induction ops generalizing s with
  | nil => simp [lastOv] at hc
  | cons op rest ih =>
    simp only [runOps] at hrun
    rcases hstep : stepOp lsn s op with e | s2
    · rw [hstep] at hrun; cases hrun
    · rw [hstep] at hrun
      rcases hrest : lastOv rest node blk with _ | c2
      · cases op with
        | failOp msg => simp [lastOv, hrest] at hc
        | guarded n b f => simp [lastOv, hrest] at hc
        | overwrite n b q =>
          have hc2 : (if n = node ∧ b = blk then some q else none) = some c := by
            simpa [lastOv, hrest] using hc
          by_cases hk : n = node ∧ b = blk
          · rw [if_pos hk] at hc2
            obtain ⟨rfl, rfl⟩ := hk
            cases hc2
            simp only [stepOp, Except.ok.injEq] at hstep
            subst hstep
            exact runOps_preserve_some lsn rest _ t _ _ _ hrun hrest
              (readPage_writePage_same _ _ _ _) (le_refl lsn)
          · rw [if_neg hk] at hc2; cases hc2
      · have : c2 = c := by simpa [lastOv, hrest] using hc
        subst this
        exact ih s2 hrun hrest

theorem runOps_guard_final_safe (lsn : Nat) (ops : List PageOp) (s t : Store)
    (node : RelFileNode) (blk : Nat)
    (hrun : runOps lsn ops s = .ok t)
    (hg : hasGuardAt ops node blk) :
    SafeAt lsn t node blk := by
  induction ops generalizing s with
  | nil => obtain ⟨f, hf⟩ := hg; simp at hf
  | cons op rest ih =>
    simp only [runOps] at hrun
    rcases hstep : stepOp lsn s op with e | s2
    · rw [hstep] at hrun; cases hrun
    · rw [hstep] at hrun
      obtain ⟨f, hf⟩ := hg
      rcases List.mem_cons.mp hf with hhead | htail
      · subst hhead
        have hsafe2 : SafeAt lsn s2 node blk := by
          rcases hh : readPage s node blk with _ | pg
          · simp only [stepOp, hh] at hstep; cases hstep; exact .inl hh
          · simp only [stepOp, hh] at hstep
            by_cases hle : lsn ≤ pg.lsn
            · rw [if_pos hle] at hstep; cases hstep; exact .inr ⟨pg, hh, hle⟩
            · rw [if_neg hle] at hstep
              rcases hfpg : f pg with e | p2
              · simp [hfpg] at hstep
              · simp only [hfpg, Except.ok.injEq] at hstep
                subst hstep
                exact .inr ⟨_, readPage_writePage_same s node blk _, le_refl lsn⟩
        exact runOps_safe_preserved lsn rest s2 t node blk hrun hsafe2
      · exact ih s2 hrun ⟨f, htail⟩

theorem runOps_ok_no_fail (lsn : Nat) (ops : List PageOp) (s t : Store)
    (hrun : runOps lsn ops s = .ok t) :
    ∀ msg, PageOp.failOp msg ∉ ops := by
  induction ops generalizing s with
  | nil => intro msg h; simp at h
  | cons op rest ih =>
    intro msg h
    simp only [runOps] at hrun
    rcases hstep : stepOp lsn s op with e | s2
    · rw [hstep] at hrun; cases hrun
    · rw [hstep] at hrun
      rcases List.mem_cons.mp h with hhead | htail
      · subst hhead; simp [stepOp] at hstep
      · exact ih s2 hrun msg htail

theorem runOps_second (lsn : Nat) (ops : List PageOp) (t : Store) :
    ∀ u : Store,
    (∀ node blk, hasGuardAt ops node blk → SafeAt lsn u node blk) →
    (∀ node blk, lastOv ops node blk = none →
      readPage u node blk = readPage t node blk) →
    (∀ node blk c, lastOv ops node blk = some c →
      readPage t node blk = some { c with lsn := lsn }) →
    (∀ msg, PageOp.failOp msg ∉ ops) →
    ∃ v, runOps lsn ops u = .ok v ∧
      ∀ node blk, readPage v node blk = readPage t node blk := by
  induction ops with
  | nil =>
    intro u _ HI _ _
    exact ⟨u, rfl, fun node blk => HI node blk rfl⟩
  | cons op rest ih =>
    intro u HG HI HT HNF
    cases op with
    | failOp msg => exact absurd (List.mem_cons_self _ _) (HNF msg)
    | guarded n b f =>
      have hstep : stepOp lsn u (.guarded n b f) = .ok u := by
        rcases HG n b ⟨f, List.mem_cons_self _ _⟩ with hnone | ⟨p, hp, hle⟩
        · simp [stepOp, hnone]
        · simp [stepOp, hp, if_pos hle]
      obtain ⟨v, hv, hext⟩ := ih u
        (fun node blk hg => HG node blk (hg.imp fun f2 h2 => List.mem_cons_of_mem _ h2))
        (fun node blk hno => HI node blk (by simp [lastOv, hno]))
        (fun node blk c hc => HT node blk c (by simp [lastOv, hc]))
        (fun msg h => HNF msg (List.mem_cons_of_mem _ h))
      exact ⟨v, by simp only [runOps, hstep]; exact hv, hext⟩
    | overwrite n b q =>
      have hstep : stepOp lsn u (.overwrite n b q) =
          .ok (writePage u n b { q with lsn := lsn }) := rfl
      obtain ⟨v, hv, hext⟩ := ih (writePage u n b { q with lsn := lsn })
        (by
          intro node blk hg
          by_cases hk : n = node ∧ b = blk
          · obtain ⟨rfl, rfl⟩ := hk
            exact .inr ⟨_, readPage_writePage_same u n b _, le_refl lsn⟩
          · rw [SafeAt, readPage_writePage_other u n node b blk _ hk]
            exact HG node blk (hg.imp fun f2 h2 => List.mem_cons_of_mem _ h2))
        (by
          intro node blk hno
          by_cases hk : n = node ∧ b = blk
          · obtain ⟨rfl, rfl⟩ := hk
            have hfull : lastOv (PageOp.overwrite n b q :: rest) n b = some q := by
              simp [lastOv, hno]
            rw [readPage_writePage_same u n b _, HT n b q hfull]
          · have hfull : lastOv (PageOp.overwrite n b q :: rest) node blk = none := by
              simp [lastOv, hno, hk]
            rw [readPage_writePage_other u n node b blk _ hk]
            exact HI node blk hfull)
        (fun node blk c hc => HT node blk c (by simp [lastOv, hc]))
        (fun msg h => HNF msg (List.mem_cons_of_mem _ h))
      exact ⟨v, by simp only [runOps, hstep]; exact hv, hext⟩

/-- Replaying the same record's page operations a second time, starting from
the store the first replay produced, succeeds and leaves every page unchanged:
the freshness check skips every incrementally-replayed page and every
from-scratch rewrite reproduces the identical page. -/
theorem runOps_idem (lsn : Nat) (ops : List PageOp) (s t : Store)
    (hrun : runOps lsn ops s = .ok t) :
    ∃ v, runOps lsn ops t = .ok v ∧
      ∀ node blk, readPage v node blk = readPage t node blk :=
  runOps_second lsn ops t t
    (fun node blk hg => runOps_guard_final_safe lsn ops s t node blk hrun hg)
    (fun _ _ _ => rfl)
    (fun node blk c hc => runOps_lastOv lsn ops s t node blk c hrun hc)
    (runOps_ok_no_fail lsn ops s t hrun)

/-!
## Theorems about the claims
-/

/-- A record's tracker update can only fail for reasons determined by the
record itself (the NEWROOT downlink extraction), never by the tracker
contents: if it succeeded on one tracker it succeeds on any other. -/
theorem btree_redo_actions_ok_any (r : XLogRecord) (a b : List bt_incomplete_action)
    (a2 : List bt_incomplete_action) (h : btree_redo_actions r a = .ok a2) :
    ∃ b2, btree_redo_actions r b = .ok b2 := by
  obtain ⟨body, k0, k1, k2⟩ := r
  cases body with
  | insert isleaf ismeta x => exact ⟨_, rfl⟩
  | split onleft isroot x => exact ⟨_, rfl⟩
  | vacuum x => exact ⟨_, rfl⟩
  | delete x => exact ⟨_, rfl⟩
  | deletePage info x => exact ⟨_, rfl⟩
  | reusePage x => exact ⟨_, rfl⟩
  | newroot x =>
    simp only [btree_redo_actions] at h ⊢
    by_cases hi : x.items ≠ []
    · rw [if_pos hi] at h ⊢
      rcases hg : pageGetItem (newrootPage x) P_FIRSTKEY with _ | itup
      · rw [hg] at h; cases h
      · exact ⟨_, rfl⟩
    · rw [if_neg hi]; exact ⟨_, rfl⟩

/-- C1: for every log record R and page store state, applying R a second time
through the Redo Dispatcher (with the Page Store's LSN freshness check
enabled) succeeds and yields the same page state as applying it once: every
LSN-guarded incremental mutation is skipped the second time, and every
from-scratch page rewrite (SPLIT right sibling, DELETE_PAGE target, NEWROOT,
meta restore, backup images) reproduces the identical page.  This holds for
every record kind. -/
theorem C1_idempotent_replay (env : RedoEnv) (lsn : Nat) (r : XLogRecord)
    (st st1 : BtState) (h : btree_redo env lsn r st = .ok st1) :
    ∃ st2, btree_redo env lsn r st1 = .ok st2 ∧
      ∀ node blk, readPage st2.store node blk = readPage st1.store node blk := by
  unfold btree_redo at h ⊢
  rcases hrun : runOps lsn (btree_redo_ops env r) st.store with e | s2
  · rw [hrun] at h; cases h
  · rw [hrun] at h
    rcases hact : btree_redo_actions r st.actions with e | a2
    · rw [hact] at h; cases h
    · rw [hact] at h
      cases h
      obtain ⟨v, hv, hext⟩ := runOps_idem lsn (btree_redo_ops env r) st.store s2 hrun
      obtain ⟨a3, ha3⟩ := btree_redo_actions_ok_any r st.actions a2 a2 hact
      refine ⟨⟨v, a3⟩, ?_, hext⟩
      simp only [hv, ha3]

theorem C1_idempotent_replay_witness :
    ∃ st2, btree_redo wEnv 20 wInsRec wSt1 = .ok st2 ∧
      ∀ node blk, readPage st2.store node blk = readPage wSt1.store node blk :=
  C1_idempotent_replay wEnv 20 wInsRec wSt wSt1 rfl

/-- C4: isSafeRestartpoint returns true if and only if the Incomplete-Action
Tracker is empty; it is true in every state produced by a completed cleanup()
(cleanup always leaves the tracker empty) and immediately after startup(). -/
theorem C4_safe_restartpoint_iff_empty :
    (∀ actions : List bt_incomplete_action,
      btree_safe_restartpoint actions = true ↔ actions = []) ∧
    (∀ st st2 : BtState, btree_xlog_cleanup st = .ok st2 →
      st2.actions = [] ∧ btree_safe_restartpoint st2.actions = true) ∧
    (∀ st : BtState, btree_safe_restartpoint (btree_xlog_startup st).actions = true) := by
  refine ⟨?_, ?_, ?_⟩
  · intro actions
    cases actions with
    | nil => simp [btree_safe_restartpoint]
    | cons a rest => simp [btree_safe_restartpoint]
  · intro st st2 h
    unfold btree_xlog_cleanup at h
    rcases hg : btree_xlog_cleanup_go st.store st.actions with e | s2
    · rw [hg] at h; cases h
    · rw [hg] at h
      cases h
      exact ⟨rfl, rfl⟩
  · intro st
    rfl

theorem C4_safe_restartpoint_iff_empty_witness :
    wCleanupSt2.actions = [] ∧ btree_safe_restartpoint wCleanupSt2.actions = true :=
  C4_safe_restartpoint_iff_empty.2.1 wCleanupSt wCleanupSt2 rfl

/-- C7: when the count of active read-only backends is zero, the Recovery
Conflict Resolver invoked for a DELETE record returns immediately (with
InvalidTransactionId) and the number of calls it makes to the page-read
interface is zero. -/
theorem C7_conflict_fast_path (backends : Nat) (hs : HeapStore) (s : Store)
    (x : XlBtreeDelete) (h : backends = 0) :
    btree_xlog_delete_get_latestRemovedXid backends hs s x = (InvalidTransactionId, 0) := by
  subst h
  rfl

theorem C7_conflict_fast_path_witness :
    btree_xlog_delete_get_latestRemovedXid 0 [] [(wNode, 2, wLeafPage)] wDelRec =
      (InvalidTransactionId, 0) :=
  C7_conflict_fast_path 0 [] [(wNode, 2, wLeafPage)] wDelRec rfl

/-- C8: during the Cleanup Pass, a SPLIT entry whose left or right block
cannot be read aborts fatally (PANIC); a DELETION entry whose target block
cannot be read is skipped as a no-op and the pass continues; and whenever the
pass runs to completion the tracker ends empty. -/
theorem C8_cleanup_missing_block_handling :
    (∀ (s : Store) (a : bt_incomplete_action) (rest : List bt_incomplete_action),
      a.is_split = true →
      (readPage s a.node a.leftblk = none ∨ readPage s a.node a.rightblk = none) →
      ∃ msg, btree_xlog_cleanup_go s (a :: rest) = .error msg) ∧
    (∀ (s : Store) (a : bt_incomplete_action) (rest : List bt_incomplete_action),
      a.is_split = false →
      readPage s a.node a.delblk = none →
      btree_xlog_cleanup_go s (a :: rest) = btree_xlog_cleanup_go s rest) ∧
    (∀ st st2 : BtState, btree_xlog_cleanup st = .ok st2 → st2.actions = []) := by
  refine ⟨?_, ?_, ?_⟩
  · intro s a rest hsplit hnone
    simp only [btree_xlog_cleanup_go, hsplit, if_true]
    rcases hl : readPage s a.node a.leftblk with _ | lp
    · exact ⟨_, rfl⟩
    · rcases hnone with hnl | hnr
      · rw [hl] at hnl; cases hnl
      · rw [hnr]
        exact ⟨_, rfl⟩
  · intro s a rest hsplit hnone
    simp only [btree_xlog_cleanup_go, hsplit, if_false, Bool.false_eq_true]
    rw [hnone]
  · intro st st2 h
    unfold btree_xlog_cleanup at h
    rcases hg : btree_xlog_cleanup_go st.store st.actions with e | s2
    · rw [hg] at h; cases h
    · rw [hg] at h
      cases h
      rfl

theorem C8_cleanup_missing_block_handling_witness :
    (∃ msg, btree_xlog_cleanup_go [] [wSplitEntry] = .error msg) ∧
    btree_xlog_cleanup_go [] [wDelEntry] = btree_xlog_cleanup_go [] [] ∧
    wCleanupSt2.actions = [] :=
  ⟨C8_cleanup_missing_block_handling.1 [] wSplitEntry [] rfl (Or.inl rfl),
   C8_cleanup_missing_block_handling.2.1 [] wDelEntry [] rfl rfl,
   C8_cleanup_missing_block_handling.2.2 wCleanupSt wCleanupSt2 rfl⟩

/-- C9: replaying a SPLIT record whose tree level is greater than zero itself
removes from the tracker the first SPLIT entry matching (same relation, right
block = the downlink carried in the split record) before registering its own
SPLIT entry — an internal-level split acts as the parent insertion that
completes a pending lower-level split. -/
theorem C9_internal_split_completes_lower (env : RedoEnv) (lsn : Nat) (r : XLogRecord)
    (onleft isroot : Bool) (x : XlBtreeSplit) (st st1 : BtState)
    (hbody : r.body = BtreeRecordBody.split onleft isroot x)
    (hlvl : x.level > 0)
    (h : btree_redo env lsn r st = .ok st1) :
    st1.actions =
      log_incomplete_split (forget_matching_split st.actions x.node x.downlink false)
        x.node x.leftsib x.rightsib isroot := by
  unfold btree_redo at h
  rcases hrun : runOps lsn (btree_redo_ops env r) st.store with e | s2
  · rw [hrun] at h; cases h
  · rw [hrun] at h
    rcases hact : btree_redo_actions r st.actions with e | a2
    · rw [hact] at h; cases h
    · rw [hact] at h
      cases h
      simp only [btree_redo_actions, hbody, Except.ok.injEq] at hact
      rw [if_pos hlvl] at hact
      rw [← hact]

theorem C9_internal_split_completes_lower_witness :
    wSplitSt1.actions =
      log_incomplete_split
        (forget_matching_split wSplitSt.actions wSplitX.node wSplitX.downlink false)
        wSplitX.node wSplitX.leftsib wSplitX.rightsib false :=
  C9_internal_split_completes_lower wEnv 30 wSplitRec false false wSplitX
    wSplitSt wSplitSt1 rfl (by decide) rfl

theorem runOps_guarded_skip_missing (lsn : Nat) (n : RelFileNode) (b : Nat)
    (f : Page → Except String Page) (rest : List PageOp) (s : Store)
    (h : readPage s n b = none) :
    runOps lsn (PageOp.guarded n b f :: rest) s = runOps lsn rest s := by
  simp [runOps, stepOp, h]

theorem runOps_last_overwrite (lsn : Nat) (l : List PageOp) (n : RelFileNode) (b : Nat)
    (p : Page) (s t : Store)
    (h : runOps lsn (l ++ [PageOp.overwrite n b p]) s = .ok t) :
    readPage t n b = some { p with lsn := lsn } := by
  rw [runOps_append] at h
  rcases h1 : runOps lsn l s with e | s1
  · rw [h1] at h; cases h
  · rw [h1] at h
    simp only [runOps, stepOp] at h
    cases h
    exact readPage_writePage_same s1 n b _

/-- A meta-carrying insert's page operations end with the unconditional meta
page overwrite. -/
theorem btree_xlog_insert_ops_meta_tail (isleaf bkp0 : Bool) (x : XlBtreeInsert) :
    ∃ l, btree_xlog_insert_ops isleaf true bkp0 x =
      l ++ [metaOverwriteOp x.target.node x.md] := by
  unfold btree_xlog_insert_ops
  rw [if_neg (by simp)]
  exact ⟨_, rfl⟩

/-- C3 (amended): a meta-carrying INSERT record rewrites the meta page
wholesale with the carried root/level/fast-root/fast-level values
unconditionally — the overwrite is not gated on the meta page's existing LSN
(only the target page's own item insertion is LSN-gated). -/
theorem C3_meta_rewrite_unconditional (env : RedoEnv) (lsn : Nat) (r : XLogRecord)
    (isleaf : Bool) (x : XlBtreeInsert) (st st1 : BtState)
    (hbody : r.body = BtreeRecordBody.insert isleaf true x)
    (h : btree_redo env lsn r st = .ok st1) :
    readPage st1.store x.target.node BTREE_METAPAGE =
      some { restoredMetaPage x.md with lsn := lsn } := by
  unfold btree_redo at h
  rcases hrun : runOps lsn (btree_redo_ops env r) st.store with e | s2
  · rw [hrun] at h; cases h
  · rw [hrun] at h
    rcases hact : btree_redo_actions r st.actions with e | a2
    · rw [hact] at h; cases h
    · rw [hact] at h
      cases h
      obtain ⟨l, hl⟩ := btree_xlog_insert_ops_meta_tail isleaf r.bkp0.isSome x
      have hops : btree_redo_ops env r =
          (restoreBkpBlocksOps r ++ l) ++
            [PageOp.overwrite x.target.node BTREE_METAPAGE (restoredMetaPage x.md)] := by
        simp [btree_redo_ops, hbody, hl, metaOverwriteOp, List.append_assoc]
      rw [hops] at hrun
      exact runOps_last_overwrite lsn _ _ _ _ _ _ hrun

/-- C3 counterexample: replaying a meta-carrying INSERT whose LSN (50) is no
newer than the meta page's current LSN (100) still rewrites the meta page —
the claimed freshness-check gating of the meta rewrite does not happen. -/
theorem C3_counterexample :
    btree_redo wEnv 50 cMetaRec cMetaSt = .ok cMetaSt1 ∧
    readPage cMetaSt.store wNode BTREE_METAPAGE = some cMetaPageOld ∧
    50 ≤ cMetaPageOld.lsn ∧
    readPage cMetaSt1.store wNode BTREE_METAPAGE ≠ some cMetaPageOld :=
  ⟨rfl, rfl, by decide, by decide⟩

theorem C3_meta_rewrite_unconditional_witness :
    readPage cMetaSt1.store cMetaX.target.node BTREE_METAPAGE =
      some { restoredMetaPage cMetaX.md with lsn := 50 } :=
  C3_meta_rewrite_unconditional wEnv 50 cMetaRec false cMetaX cMetaSt cMetaSt1 rfl rfl

/-- C10: an INSERT, DELETE or VACUUM record whose target page cannot be read
(the create-if-missing-disabled read returns an invalid handle) performs no
page mutation for that record and returns without error; for INSERT the
silent skip still does not prevent the meta-page rewrite (meta variant) or
the removal of a matching SPLIT tracker entry (non-leaf variant). -/
theorem C10_missing_target_silent_skip :
    (∀ (env : RedoEnv) (lsn : Nat) (r : XLogRecord) (isleaf ismeta : Bool)
       (x : XlBtreeInsert) (st : BtState),
      r.body = BtreeRecordBody.insert isleaf ismeta x →
      r.bkp0 = none → r.bkp1 = none → r.bkp2 = none →
      readPage st.store x.target.node x.target.tidBlock = none →
      btree_redo env lsn r st = .ok
        { store :=
            if ismeta then
              writePage st.store x.target.node BTREE_METAPAGE
                { restoredMetaPage x.md with lsn := lsn }
            else st.store
          actions :=
            if isleaf then st.actions
            else forget_matching_split st.actions x.target.node x.downlink false }) ∧
    (∀ (env : RedoEnv) (lsn : Nat) (r : XLogRecord) (x : XlBtreeVacuum) (st : BtState),
      r.body = BtreeRecordBody.vacuum x →
      r.bkp0 = none → r.bkp1 = none → r.bkp2 = none →
      readPage st.store x.node x.block = none →
      btree_redo env lsn r st = .ok st) ∧
    (∀ (env : RedoEnv) (lsn : Nat) (r : XLogRecord) (x : XlBtreeDelete) (st : BtState),
      r.body = BtreeRecordBody.delete x →
      r.bkp0 = none → r.bkp1 = none → r.bkp2 = none →
      readPage st.store x.node x.block = none →
      btree_redo env lsn r st = .ok st) := by
  refine ⟨?_, ?_, ?_⟩
  · intro env lsn r isleaf ismeta x st hbody hb0 hb1 hb2 hread
    unfold btree_redo
    have hops : btree_redo_ops env r = btree_xlog_insert_ops isleaf ismeta false x := by
      simp [btree_redo_ops, hbody, restoreBkpBlocksOps, bkpOps1, hb0, hb1, hb2]
    have hops2 : btree_xlog_insert_ops isleaf ismeta false x =
        PageOp.guarded x.target.node x.target.tidBlock (fun page =>
          match PageAddItem page x.item x.target.tidOffset with
          | none => Except.error "btree_insert_redo: failed to add item"
          | some p2 => Except.ok p2) ::
        (if ismeta then [metaOverwriteOp x.target.node x.md] else []) := by
      unfold btree_xlog_insert_ops
      rw [if_neg (by simp), if_pos (by simp)]
      rfl
    rw [hops, hops2, runOps_guarded_skip_missing lsn _ _ _ _ _ hread]
    cases ismeta with
    | true =>
      simp only [if_pos trivial, runOps, stepOp, metaOverwriteOp, btree_redo_actions, hbody]
      cases isleaf with
      | true => rfl
      | false => rfl
    | false =>
      simp only [if_neg (by simp : ¬(False : Prop)), runOps, btree_redo_actions, hbody]
      cases isleaf with
      | true => rfl
      | false => rfl
  · intro env lsn r x st hbody hb0 hb1 hb2 hread
    unfold btree_redo
    have hops : btree_redo_ops env r = btree_xlog_vacuum_ops false x := by
      simp [btree_redo_ops, hbody, restoreBkpBlocksOps, bkpOps1, hb0, hb1, hb2]
    rw [hops]
    unfold btree_xlog_vacuum_ops
    rw [if_neg (by simp)]
    rw [runOps_guarded_skip_missing lsn _ _ _ _ _ hread]
    simp only [runOps, btree_redo_actions, hbody]
  · intro env lsn r x st hbody hb0 hb1 hb2 hread
    unfold btree_redo
    have hops : btree_redo_ops env r = btree_xlog_delete_ops false x := by
      simp [btree_redo_ops, hbody, restoreBkpBlocksOps, bkpOps1, hb0, hb1, hb2]
    rw [hops]
    unfold btree_xlog_delete_ops
    rw [if_neg (by simp)]
    rw [runOps_guarded_skip_missing lsn _ _ _ _ _ hread]
    simp only [runOps, btree_redo_actions, hbody]

theorem countDel_forget_self (l : List bt_incomplete_action) (node : RelFileNode)
    (blk : Nat) :
    countDel (forget_matching_deletion l node blk) node blk = countDel l node blk - 1 := by
  induction l with
  | nil => simp [forget_matching_deletion, countDel]
  | cons a rest ih =>
    simp only [countDel] at ih ⊢
    by_cases hm : a.node = node ∧ a.is_split = false ∧ blk = a.delblk
    · have hd : delMatch node blk a = true := by simp [delMatch, hm]
      simp only [forget_matching_deletion, if_pos hm]
      rw [List.countP_cons_of_pos _ _ hd]
      omega
    · have hd : ¬delMatch node blk a = true := by simp [delMatch, hm]
      simp only [forget_matching_deletion, if_neg hm]
      rw [List.countP_cons_of_neg _ _ hd, List.countP_cons_of_neg _ _ hd]
      exact ih

theorem countDel_forget_other (l : List bt_incomplete_action) (node : RelFileNode)
    (blk blk2 : Nat) (hne : blk ≠ blk2) :
    countDel (forget_matching_deletion l node blk) node blk2 = countDel l node blk2 := by
  induction l with
  | nil => simp [forget_matching_deletion]
  | cons a rest ih =>
    simp only [countDel] at ih ⊢
    by_cases hm : a.node = node ∧ a.is_split = false ∧ blk = a.delblk
    · have hd : ¬delMatch node blk2 a = true := by
        simp only [delMatch, decide_eq_true_eq]
        rintro ⟨_, _, rfl⟩
        exact hne hm.2.2
      simp only [forget_matching_deletion, if_pos hm]
      rw [List.countP_cons_of_neg _ _ hd]
    · simp only [forget_matching_deletion, if_neg hm]
      rcases hd : delMatch node blk2 a with _ | _
      · rw [List.countP_cons_of_neg, List.countP_cons_of_neg, ih] <;> simp [hd]
      · rw [List.countP_cons_of_pos _ _ hd, List.countP_cons_of_pos _ _ hd, ih]

theorem countDel_append (l1 l2 : List bt_incomplete_action) (node : RelFileNode)
    (blk : Nat) :
    countDel (l1 ++ l2) node blk = countDel l1 node blk + countDel l2 node blk :=
  List.countP_append _ _ _

/-- forget_matching_split returns a sublist: it never adds entries. -/
theorem forget_matching_split_sublist (l : List bt_incomplete_action)
    (node : RelFileNode) (downlink : Nat) (is_root : Bool) :
    (forget_matching_split l node downlink is_root).Sublist l := by
  induction l with
  | nil => simp [forget_matching_split]
  | cons a rest ih =>
    by_cases hm : a.node = node ∧ a.is_split = true ∧ downlink = a.rightblk
    · simp only [forget_matching_split, if_pos hm]
      exact (List.sublist_cons_self a rest)
    · simp only [forget_matching_split, if_neg hm]
      exact ih.cons₂ a

theorem countSplit_forget_self (l : List bt_incomplete_action) (node : RelFileNode)
    (downlink : Nat) (is_root : Bool) :
    countSplit (forget_matching_split l node downlink is_root) node downlink =
      countSplit l node downlink - 1 := by
  induction l with
  | nil => simp [forget_matching_split, countSplit]
  | cons a rest ih =>
    simp only [countSplit] at ih ⊢
    by_cases hm : a.node = node ∧ a.is_split = true ∧ downlink = a.rightblk
    · have hd : splitMatch node downlink a = true := by simp [splitMatch, hm]
      simp only [forget_matching_split, if_pos hm]
      rw [List.countP_cons_of_pos _ _ hd]
      omega
    · have hd : ¬splitMatch node downlink a = true := by simp [splitMatch, hm]
      simp only [forget_matching_split, if_neg hm]
      rw [List.countP_cons_of_neg _ _ hd, List.countP_cons_of_neg _ _ hd]
      exact ih

theorem countSplit_forget_le (l : List bt_incomplete_action) (node node2 : RelFileNode)
    (downlink downlink2 : Nat) (is_root : Bool) :
    countSplit (forget_matching_split l node downlink is_root) node2 downlink2 ≤
      countSplit l node2 downlink2 :=
  (forget_matching_split_sublist l node downlink is_root).countP_le _

theorem countSplit_append (l1 l2 : List bt_incomplete_action) (node : RelFileNode)
    (downlink : Nat) :
    countSplit (l1 ++ l2) node downlink =
      countSplit l1 node downlink + countSplit l2 node downlink :=
  List.countP_append _ _ _

/-- Invert a successful btree_redo into its page-store and tracker parts. -/
theorem btree_redo_ok_parts (env : RedoEnv) (lsn : Nat) (r : XLogRecord)
    (st st1 : BtState) (h : btree_redo env lsn r st = .ok st1) :
    runOps lsn (btree_redo_ops env r) st.store = .ok st1.store ∧
    btree_redo_actions r st.actions = .ok st1.actions := by
  unfold btree_redo at h
  rcases hrun : runOps lsn (btree_redo_ops env r) st.store with e | s2
  · rw [hrun] at h; cases h
  · rw [hrun] at h
    rcases hact : btree_redo_actions r st.actions with e | a2
    · rw [hact] at h; cases h
    · rw [hact] at h
      cases h
      refine ⟨?_, ?_⟩
      · simp only []
      · simp only []

theorem countDel_log_self (l : List bt_incomplete_action) (node : RelFileNode)
    (delblk : Nat) :
    countDel (log_incomplete_deletion l node delblk) node delblk =
      countDel l node delblk + 1 := by
  rw [log_incomplete_deletion, countDel_append]
  have hd : delMatch node delblk
      { node := node, is_split := false, is_root := false
        leftblk := 0, rightblk := 0, delblk := delblk } = true := by
    simp [delMatch]
  simp [countDel, List.countP_cons, hd]

theorem countDel_log_other (l : List bt_incomplete_action) (node : RelFileNode)
    (delblk blk2 : Nat) (hne : delblk ≠ blk2) :
    countDel (log_incomplete_deletion l node delblk) node blk2 =
      countDel l node blk2 := by
  rw [log_incomplete_deletion, countDel_append]
  have hd : delMatch node blk2
      { node := node, is_split := false, is_root := false
        leftblk := 0, rightblk := 0, delblk := delblk } = false := by
    simp only [delMatch, decide_eq_false_iff_not]
    rintro ⟨-, -, h⟩
    exact hne h.symm
  simp [countDel, List.countP_cons, hd]

theorem log_incomplete_deletion_mem (l : List bt_incomplete_action)
    (node : RelFileNode) (delblk : Nat) :
    ∃ e ∈ log_incomplete_deletion l node delblk,
      e.node = node ∧ e.is_split = false ∧ e.delblk = delblk :=
  ⟨_, List.mem_append_right _ (List.mem_singleton.mpr rfl), rfl, rfl, rfl⟩

/-- C5: replaying a half-dead-only DELETE_PAGE record for dead block B removes
the (unique) matching DELETION entry for B and registers a DELETION entry for
B's parent (the block named by the record's target TID); replaying a
subsequent full DELETE_PAGE record whose dead block is that parent removes
that entry from the tracker. -/
theorem C5_deletion_cascade (env : RedoEnv) (lsn1 lsn2 : Nat) (r1 r2 : XLogRecord)
    (x1 x2 : XlBtreeDeletePage) (st0 st1 st2 : BtState)
    (hbody1 : r1.body = BtreeRecordBody.deletePage DeletePageInfo.halfDead x1)
    (hbody2 : r2.body = BtreeRecordBody.deletePage DeletePageInfo.plain x2)
    (hsame : x2.target.node = x1.target.node)
    (hdead2 : x2.deadblk = x1.target.tidBlock)
    (hne : x1.target.tidBlock ≠ x1.deadblk)
    (hcnt1 : countDel st0.actions x1.target.node x1.deadblk ≤ 1)
    (hcnt2 : countDel st0.actions x1.target.node x1.target.tidBlock = 0)
    (h1 : btree_redo env lsn1 r1 st0 = .ok st1)
    (h2 : btree_redo env lsn2 r2 st1 = .ok st2) :
    countDel st1.actions x1.target.node x1.deadblk = 0 ∧
    (∃ e ∈ st1.actions, e.node = x1.target.node ∧ e.is_split = false ∧
      e.delblk = x1.target.tidBlock) ∧
    countDel st2.actions x1.target.node x1.target.tidBlock = 0 := by
  have ha1 := (btree_redo_ok_parts env lsn1 r1 st0 st1 h1).2
  have ha2 := (btree_redo_ok_parts env lsn2 r2 st1 st2 h2).2
  simp only [btree_redo_actions, hbody1, Except.ok.injEq, reduceIte] at ha1
  simp only [btree_redo_actions, hbody2, Except.ok.injEq, reduceIte] at ha2
  rw [if_neg (by decide)] at ha2
  refine ⟨?_, ?_, ?_⟩
  · rw [← ha1, countDel_log_other _ _ _ _ hne, countDel_forget_self]
    omega
  · rw [← ha1]
    exact log_incomplete_deletion_mem _ _ _
  · rw [← ha2, hsame, hdead2, ← ha1, countDel_forget_self, countDel_log_self,
      countDel_forget_other _ _ _ _ (fun h => hne h.symm)]
    omega

theorem countSplit_log_self (l : List bt_incomplete_action) (node : RelFileNode)
    (leftblk rightblk : Nat) (is_root : Bool) :
    countSplit (log_incomplete_split l node leftblk rightblk is_root) node rightblk =
      countSplit l node rightblk + 1 := by
  rw [log_incomplete_split, countSplit_append]
  have hd : splitMatch node rightblk
      { node := node, is_split := true, is_root := is_root
        leftblk := leftblk, rightblk := rightblk, delblk := 0 } = true := by
    simp [splitMatch]
  simp [countSplit, List.countP_cons, hd]

theorem mem_insertAt_self (xs : List IndexTuple) (i : Nat) (a : IndexTuple) :
    a ∈ insertAt xs i a := by
  induction xs generalizing i with
  | nil =>
    cases i with
    | zero => simp [insertAt]
    | succ j => simp [insertAt]
  | cons x rest ih =>
    cases i with
    | zero => simp [insertAt]
    | succ j =>
      simp only [insertAt]
      exact List.mem_cons_of_mem x (ih j)

theorem PageAddItem_items (page : Page) (item : IndexTuple) (off : Nat) (p2 : Page)
    (h : PageAddItem page item off = some p2) :
    p2.items = insertAt page.items (off - 1) item := by
  unfold PageAddItem at h
  split at h
  · cases h; rfl
  · cases h

/-- C2: a SPLIT record followed in the same pass by the non-leaf INSERT record
carrying the matching downlink (same relation, downlink block = the split's
right block): after the INSERT is redone the tracker contains zero SPLIT
entries for that (relation, right block) pair, and the parent page contains
the inserted item, whose TID block equals the right block. -/
theorem C2_split_closure (env : RedoEnv) (lsn1 lsn2 : Nat)
    (r1 r2 : XLogRecord) (onleft isroot : Bool) (x1 : XlBtreeSplit) (x2 : XlBtreeInsert)
    (st0 st1 st2 : BtState) (pp : Page)
    (hbody1 : r1.body = BtreeRecordBody.split onleft isroot x1)
    (hbody2 : r2.body = BtreeRecordBody.insert false false x2)
    (hb0 : r2.bkp0 = none) (hb1 : r2.bkp1 = none) (hb2 : r2.bkp2 = none)
    (hnode : x2.target.node = x1.node)
    (hdl : x2.downlink = x1.rightsib)
    (htid : x2.item.tidBlock = x1.rightsib)
    (hcnt : countSplit st0.actions x1.node x1.rightsib = 0)
    (hpp : readPage st1.store x2.target.node x2.target.tidBlock = some pp)
    (hstale : pp.lsn < lsn2)
    (h1 : btree_redo env lsn1 r1 st0 = .ok st1)
    (h2 : btree_redo env lsn2 r2 st1 = .ok st2) :
    countSplit st2.actions x1.node x1.rightsib = 0 ∧
    ∃ pp2, readPage st2.store x2.target.node x2.target.tidBlock = some pp2 ∧
      x2.item ∈ pp2.items ∧ x2.item.tidBlock = x1.rightsib := by
  have ha1 := (btree_redo_ok_parts env lsn1 r1 st0 st1 h1).2
  have ha2 := (btree_redo_ok_parts env lsn2 r2 st1 st2 h2).2
  simp only [btree_redo_actions, hbody1, Except.ok.injEq] at ha1
  simp [btree_redo_actions, hbody2] at ha2
  constructor
  · rw [← ha2, hnode, hdl, countSplit_forget_self, ← ha1, countSplit_log_self]
    have hpre : countSplit
        (if x1.level > 0 then
          forget_matching_split st0.actions x1.node x1.downlink false
         else st0.actions) x1.node x1.rightsib = 0 := by
      by_cases hl : x1.level > 0
      · rw [if_pos hl]
        have hle := countSplit_forget_le st0.actions x1.node x1.node
          x1.downlink x1.rightsib false
        omega
      · rw [if_neg hl]
        exact hcnt
    rw [hpre]
  · have hs2 := (btree_redo_ok_parts env lsn2 r2 st1 st2 h2).1
    have hops : btree_redo_ops env r2 =
        [PageOp.guarded x2.target.node x2.target.tidBlock (fun page =>
          match PageAddItem page x2.item x2.target.tidOffset with
          | none => Except.error "btree_insert_redo: failed to add item"
          | some p2 => Except.ok p2)] := by
      simp [btree_redo_ops, hbody2, restoreBkpBlocksOps, bkpOps1, hb0, hb1, hb2,
        btree_xlog_insert_ops]
    rw [hops] at hs2
    simp only [runOps, stepOp, hpp] at hs2
    rw [if_neg (not_le.mpr hstale)] at hs2
    rcases hadd : PageAddItem pp x2.item x2.target.tidOffset with _ | p2
    · rw [hadd] at hs2; cases hs2
    · simp only [hadd, Except.ok.injEq] at hs2
      refine ⟨{ p2 with lsn := lsn2 }, ?_, ?_, htid⟩
      · rw [← hs2]
        exact readPage_writePage_same _ _ _ _
      · show x2.item ∈ p2.items
        rw [PageAddItem_items pp x2.item x2.target.tidOffset p2 hadd]
        exact mem_insertAt_self _ _ _

theorem C2_split_closure_witness :
    countSplit c2St2.actions c2X1.node c2X1.rightsib = 0 ∧
    ∃ pp2, readPage c2St2.store c2X2.target.node c2X2.target.tidBlock = some pp2 ∧
      c2X2.item ∈ pp2.items ∧ c2X2.item.tidBlock = c2X1.rightsib :=
  C2_split_closure wEnv 100 101 c2R1 c2R2 false false c2X1 c2X2 c2St0 c2St1 c2St2
    c2ParentPage rfl rfl rfl rfl rfl rfl rfl rfl rfl rfl (by decide) rfl rfl

theorem C5_deletion_cascade_witness :
    countDel c5St1.actions c5X1.target.node c5X1.deadblk = 0 ∧
    (∃ e ∈ c5St1.actions, e.node = c5X1.target.node ∧ e.is_split = false ∧
      e.delblk = c5X1.target.tidBlock) ∧
    countDel c5St2.actions c5X1.target.node c5X1.target.tidBlock = 0 :=
  C5_deletion_cascade wEnv 70 71 c5R1 c5R2 c5X1 c5X2 c5St0 c5St1 c5St2
    rfl rfl rfl rfl (by decide) (by decide) (by decide) rfl rfl

theorem C10_missing_target_silent_skip_witness :
    btree_redo wEnv 60 c10InsRec c10St = .ok
      { store := writePage c10St.store wNode BTREE_METAPAGE
          { restoredMetaPage cMetaMd with lsn := 60 }
        actions := forget_matching_split c10St.actions wNode 5 false } ∧
    btree_redo wEnv 61 c10VacRec c10Empty = .ok c10Empty ∧
    btree_redo wEnv 62 c10DelRec c10Empty = .ok c10Empty :=
  ⟨C10_missing_target_silent_skip.1 wEnv 60 c10InsRec false true c10InsX c10St
      rfl rfl rfl rfl rfl,
   C10_missing_target_silent_skip.2.1 wEnv 61 c10VacRec c10VacX c10Empty
      rfl rfl rfl rfl rfl,
   C10_missing_target_silent_skip.2.2 wEnv 62 c10DelRec c10DelX c10Empty
      rfl rfl rfl rfl rfl⟩

theorem insertAt_zero (xs : List IndexTuple) (a : IndexTuple) :
    insertAt xs 0 a = a :: xs := by
  cases xs <;> rfl

theorem splitLeftFinish_hikey (x : XlBtreeSplit) (hikey : IndexTuple)
    (lpage2 p2 : Page) (h : splitLeftFinish x hikey lpage2 = .ok p2) :
    pageGetItem p2 P_HIKEY = some hikey := by
  unfold splitLeftFinish at h
  rcases hadd : PageAddItem lpage2 hikey P_HIKEY with _ | lpage3
  · rw [hadd] at h; cases h
  · rw [hadd] at h
    cases h
    have hit := PageAddItem_items _ _ _ _ hadd
    simp only [pageGetItem, hit]
    have h0 : P_HIKEY - 1 = 0 := rfl
    rw [h0, insertAt_zero]
    rfl

/-- A successful left-page rebuild leaves the high key it was given at offset
P_HIKEY (the last PageAddItem call of the rebuild). -/
theorem splitLeftRebuild_hikey (onleft : Bool) (x : XlBtreeSplit) (hikey : IndexTuple)
    (lpage p2 : Page) (h : splitLeftRebuild onleft x hikey lpage = .ok p2) :
    pageGetItem p2 P_HIKEY = some hikey := by
  unfold splitLeftRebuild at h
  by_cases ho : onleft = true
  · rw [if_pos ho] at h
    split at h
    · cases h
    · exact splitLeftFinish_hikey _ _ _ _ h
  · rw [if_neg ho] at h
    exact splitLeftFinish_hikey _ _ _ _ h

/-- C6: for a leaf-level (level 0) SPLIT record replayed on both siblings via
the incremental path, after redo the left page's high key (the item at the
high-key offset) is byte-for-byte equal to the right page's first data item. -/
theorem C6_split_leaf_highkey (env : RedoEnv) (lsn : Nat) (r : XLogRecord)
    (onleft isroot : Bool) (x : XlBtreeSplit) (st st1 : BtState) (lp : Page)
    (hbody : r.body = BtreeRecordBody.split onleft isroot x)
    (hb0 : r.bkp0 = none) (hb1 : r.bkp1 = none) (hb2 : r.bkp2 = none)
    (hlvl : x.level = 0)
    (hlr : x.leftsib ≠ x.rightsib)
    (hlp : readPage st.store x.node x.leftsib = some lp)
    (hstale : lp.lsn < lsn)
    (h : btree_redo env lsn r st = .ok st1) :
    ∃ rp lp2 hikey,
      readPage st1.store x.node x.rightsib = some rp ∧
      readPage st1.store x.node x.leftsib = some lp2 ∧
      pageGetItem rp (P_FIRSTDATAKEY rp.special) = some hikey ∧
      pageGetItem lp2 P_HIKEY = some hikey := by
  have hs := (btree_redo_ok_parts env lsn r st st1 h).1
  have hops0 : btree_redo_ops env r = btree_xlog_split_ops onleft isroot false false x := by
    simp [btree_redo_ops, hbody, restoreBkpBlocksOps, bkpOps1, hb0, hb1, hb2]
  rw [hops0] at hs
  rcases hhk : pageGetItem (splitRightPage x) (P_FIRSTDATAKEY (splitRightPage x).special)
    with _ | hk
  · rw [btree_xlog_split_ops] at hs
    simp [hlvl, hhk, runOps, stepOp] at hs
  · rw [btree_xlog_split_ops] at hs
    simp only [hlvl, hhk, if_pos rfl] at hs
    simp only [Bool.not_false, if_pos trivial, List.singleton_append,
      List.cons_append] at hs
    simp only [runOps, stepOp] at hs
    have hread1 : readPage
        (writePage st.store x.node x.rightsib { splitRightPage x with lsn := lsn })
        x.node x.leftsib = some lp := by
      rw [readPage_writePage_other]
      · exact hlp
      · rintro ⟨-, hbb⟩
        exact hlr hbb.symm
    simp only [hread1] at hs
    rw [if_neg (not_le.mpr hstale)] at hs
    rcases hreb : splitLeftRebuild onleft x hk lp with e | lp3
    · simp only [hreb] at hs
      cases hs
    · simp only [hreb] at hs
      have hR : readPage st1.store x.node x.rightsib =
          some { splitRightPage x with lsn := lsn } := by
        refine runOps_preserve_some lsn _ _ st1.store x.node x.rightsib _ hs ?_ ?_ (le_refl lsn)
        · split
          · simp [lastOv]
          · simp [lastOv]
        · rw [readPage_writePage_other]
          · exact readPage_writePage_same _ _ _ _
          · rintro ⟨-, hbb⟩
            exact hlr hbb
      have hL : readPage st1.store x.node x.leftsib = some { lp3 with lsn := lsn } := by
        refine runOps_preserve_some lsn _ _ st1.store x.node x.leftsib _ hs ?_ ?_ (le_refl lsn)
        · split
          · simp [lastOv]
          · simp [lastOv]
        · exact readPage_writePage_same _ _ _ _
      refine ⟨{ splitRightPage x with lsn := lsn }, { lp3 with lsn := lsn }, hk, hR, hL, ?_, ?_⟩
      · exact hhk
      · exact splitLeftRebuild_hikey onleft x hk lp lp3 hreb

theorem C6_split_leaf_highkey_witness :
    ∃ rp lp2 hikey,
      readPage c2St1.store c2X1.node c2X1.rightsib = some rp ∧
      readPage c2St1.store c2X1.node c2X1.leftsib = some lp2 ∧
      pageGetItem rp (P_FIRSTDATAKEY rp.special) = some hikey ∧
      pageGetItem lp2 P_HIKEY = some hikey :=
  C6_split_leaf_highkey wEnv 100 c2R1 false false c2X1 c2St0 c2St1 c2LeftPage
    rfl rfl rfl rfl rfl (by decide) rfl (by decide) rfl

end NbtXlog
